import Mathlib

set_option maxRecDepth 4000

/-!
Shallow embedding of the address classification and CashAddr codec of
`src/lib/address.js` (owstack/bcccore-lib).

Conventions of the embedding:
* JavaScript strings are embedded as `List Char`, byte buffers as
  `List Nat` (one entry per byte), and the arbitrary-precision `BN`
  checksum accumulator as `Nat` (it is never negative in the source).
* Fallible paths return `Except`/`Option`; the error constructors mirror
  the distinct error messages thrown by the JavaScript source.
* The repository files `lib/networks.js` and `lib/util/convertBits.js`
  are not part of the provided sources; the definitions for them below
  are modelled from the specification and marked as such in their doc
  comments.
-/

namespace Bcc

/-! ### Character and string primitives (JS `toLowerCase`, `toUpperCase`, `trim`, `split`) -/

/-- ASCII lower-casing of one character: the behaviour of JS
`String.prototype.toLowerCase` on the character range address strings use. -/
def toLowerChar (c : Char) : Char :=
  if 65 ≤ c.toNat ∧ c.toNat ≤ 90 then Char.ofNat (c.toNat + 32) else c

/-- ASCII upper-casing of one character (JS `String.prototype.toUpperCase`). -/
def toUpperChar (c : Char) : Char :=
  if 97 ≤ c.toNat ∧ c.toNat ≤ 122 then Char.ofNat (c.toNat - 32) else c

def toLowerStr (s : List Char) : List Char := s.map toLowerChar

def toUpperStr (s : List Char) : List Char := s.map toUpperChar

/-- Local helper `hasSingleCase` of `decodeCashAddress` (address.js:287-292). -/
def hasSingleCase (s : List Char) : Bool :=
  s == toLowerStr s || s == toUpperStr s

/-- JS `String.prototype.split` with a single-character separator. -/
def splitOnChar (sep : Char) : List Char → List (List Char)
  | [] => [[]]
  | c :: rest =>
    if c = sep then [] :: splitOnChar sep rest
    else (c :: (splitOnChar sep rest).headD []) :: (splitOnChar sep rest).tail

/-- Whitespace characters removed by JS `String.prototype.trim` (the ones a
JS address string can realistically carry). -/
def isJsSpace (c : Char) : Bool :=
  c = ' ' || c = '\t' || c = '\n' || c = '\r'

/-- JS `String.prototype.trim`. -/
def trimStr (s : List Char) : List Char :=
  ((s.dropWhile isJsSpace).reverse.dropWhile isJsSpace).reverse

/-! ### The CashAddr Base-32 alphabet codec

The ows-common `Base32` encoder/decoder is an external collaborator;
it is modelled at its interface (spec §6): the alphabet
`qpzry9x8gf2tvdw0s3jn54khce6mua7l`, each character standing for its
index, with unknown characters rejected. -/

def CHARSET : List Char := "qpzry9x8gf2tvdw0s3jn54khce6mua7l".toList

/-- Index of a character in the CashAddr alphabet. -/
def charValue (c : Char) : Option Nat :=
  CHARSET.findIdx? (fun x => x == c)

/-- Interface model of ows-common `Base32.decode`: each character maps to
its alphabet index; any character outside the alphabet fails. -/
def base32Decode : List Char → Option (List Nat)
  | [] => some []
  | c :: rest => (charValue c).bind fun v => (base32Decode rest).map fun vs => v :: vs

/-- Interface model of ows-common `Base32.encode`: a value `v < 32` maps to
`CHARSET[v]` (the codec is only applied to five-bit values). -/
def base32Encode (vs : List Nat) : List Char :=
  vs.map (fun v => CHARSET.getD v 'q')

/-! ### Bit regrouping

Modelled from the spec: the Bit-Regrouping Transform (§2 item 3, §4.2
steps 2 and 5) — the repository's `lib/util/convertBits.js` is not among
the provided sources.  A value sequence is viewed as the concatenation of
the big-endian bit patterns of its entries and re-chunked at the target
width. -/

/-- Big-endian bits of `n` at width `width`. -/
def natToBits (width n : Nat) : List Bool :=
  (List.range width).map (fun i => n.testBit (width - 1 - i))

/-- Value of a big-endian bit list. -/
def bitsToNat (bits : List Bool) : Nat :=
  bits.foldl (fun acc b => 2 * acc + (if b then 1 else 0)) 0

/-- Fuel-driven worker for `chunksOf`; the fuel only needs to dominate the
list length, and every call site passes exactly the length. -/
def chunksOfAux (k : Nat) : Nat → List α → List (List α)
  | _, [] => []
  | 0, _ :: _ => []
  | fuel + 1, a :: rest => (a :: rest.take (k - 1)) :: chunksOfAux k fuel (rest.drop (k - 1))

/-- Split a list into consecutive chunks of `k` elements (last chunk may be
shorter). -/
def chunksOf (k : Nat) (l : List α) : List (List α) := chunksOfAux k l.length l

/-- Zero bits appended to reach a multiple of the chunk width `t`. -/
def zeroPad (t : Nat) (bits : List Bool) : List Bool :=
  bits ++ List.replicate ((t - bits.length % t) % t) false

/-- Modelled from the spec: non-strict bit regrouping (§4.2 Encode step 2):
repack `fromBits`-wide values into `toBits`-wide values, zero-padding the
final group to a full output value. -/
def convertBits (data : List Nat) (fromBits toBits : Nat) : List Nat :=
  (chunksOf toBits (zeroPad toBits ((data.map (natToBits fromBits)).flatten))).map bitsToNat

/-- Modelled from the spec: strict bit regrouping (§4.2 Decode step 5):
incomplete trailing bits are discarded only when they are all zero,
otherwise the conversion fails (`NonZeroPadding`). -/
def convertBitsStrict (data : List Nat) (fromBits toBits : Nat) : Option (List Nat) :=
  if (((data.map (natToBits fromBits)).flatten.drop
        (toBits * ((data.map (natToBits fromBits)).flatten.length / toBits))).all
        (fun b => b == false)) then
    some ((chunksOf toBits ((data.map (natToBits fromBits)).flatten.take
        (toBits * ((data.map (natToBits fromBits)).flatten.length / toBits)))).map bitsToNat)
  else none

/-! ### The polymod checksum (address.js:773-798) -/

/-- The five generator constants (address.js:773-777). -/
def GENERATORS : List Nat :=
  [0x98f2bc8e61, 0x79b76d99e2, 0xf33e5fb3c4, 0xae2eabe2a8, 0x1e4f43e470]

/-- Inner generator loop of `polymod` (address.js:790-795). -/
def applyGenerators (topBits checksum : Nat) : Nat :=
  (List.range 5).foldl
    (fun c i => if (topBits >>> i) &&& 1 = 1 then c ^^^ GENERATORS.getD i 0 else c)
    checksum

/-- One iteration of the `polymod` loop (address.js:783-796). -/
def polymodStep (checksum value : Nat) : Nat :=
  applyGenerators (checksum >>> 35) (((checksum &&& 0x07ffffffff) <<< 5) ^^^ value)

/-- `polymod` (address.js:779-798). -/
def polymod (data : List Nat) : Nat :=
  (data.foldl polymodStep 1) ^^^ 1

/-- `protocolToArray` (address.js:278-284): the low five bits of each
character code of the network's human-readable protocol string. -/
def protocolToArray (protocol : List Char) : List Nat :=
  protocol.map (fun c => c.toNat &&& 31)

/-- `checksumToArray` (address.js:757-765): the eight five-bit digits of the
checksum, most significant first. -/
def checksumToArray (checksum : Nat) : List Nat :=
  ((List.range 8).map (fun i => (checksum >>> (5 * i)) &&& 31)).reverse

/-- Local helper `validChecksum` of `decodeCashAddress` (address.js:294-297). -/
def validChecksum (protocol : List Char) (payload : List Nat) : Bool :=
  polymod ((protocolToArray protocol ++ [0]) ++ payload) == 0

/-! ### The network registry

Modelled from the spec: the Network Registry (§2 item 1, §3) is the
external `lib/networks.js`, consumed as a lookup table.  The three
registered networks, their codes (`bch`, `bchtest`, `bchreg`, from the
networks test suite), their CashAddr protocol strings and their
version-byte values for each address type. -/

structure Network where
  name : String
  protocol : List Char
  pubkeyhash : Nat
  scripthash : Nat
deriving DecidableEq, Repr

def livenet : Network := ⟨"livenet", "bitcoincash".toList, 0x00, 0x05⟩
def testnet : Network := ⟨"testnet", "bchtest".toList, 0x6f, 0xc4⟩
def regtest : Network := ⟨"regtest", "bchreg".toList, 0x6f, 0xc4⟩

/-- Registration order of the networks, used by every probing lookup. -/
def registeredNetworks : List Network := [livenet, testnet, regtest]

/-- `Networks.defaultNetwork` (livenet, per the networks test suite). -/
def defaultNetwork : Network := livenet

/-- `Networks.get` keyed by a network name, alias or code string. -/
def getNetwork : String → Option Network
  | "livenet" | "mainnet" | "bch" => some livenet
  | "testnet" | "bchtest" => some testnet
  | "regtest" | "bchreg" => some regtest
  | _ => none

/-- `Networks.get` keyed by a CashAddr protocol string. -/
def getByProtocol (p : List Char) : Option Network :=
  registeredNetworks.find? (fun n => n.protocol == p)

/-- `Networks.get(byte, 'prefix.pubkeyhash')`: first registered network whose
pubkeyhash version byte matches. -/
def getByPubkeyhash (b : Nat) : Option Network :=
  registeredNetworks.find? (fun n => n.pubkeyhash == b)

/-- `Networks.get(byte, 'prefix.scripthash')`. -/
def getByScripthash (b : Nat) : Option Network :=
  registeredNetworks.find? (fun n => n.scripthash == b)

/-! ### Address data model -/

/-- The two address types (`Address.PayToPublicKeyHash`,
`Address.PayToScriptHash`, address.js:121-123). -/
inductive AddrType
  | pubkeyhash
  | scripthash
deriving DecidableEq, Repr

/-- The `info` records produced by the `_transform*` helpers: hash bytes plus
the network and type when the input shape determines them. -/
structure AddrInfo where
  hashBuffer : List Nat
  network : Option Network
  type : Option AddrType
deriving DecidableEq, Repr

/-- The distinct failure modes of `decodeCashAddress`, one per thrown
message. -/
inductive DecodeError
  | mixedCase        -- 'Mixed case'
  | invalidFormat    -- 'Invalid format'
  | invalidCharacter -- Base32 rejects a character outside the alphabet
  | invalidChecksum  -- 'Invalid checksum'
  | nonZeroPadding   -- strict bit regrouping rejects non-zero surplus bits
  | invalidHashSize  -- 'Invalid hash size'
  | invalidVersionType -- 'Invalid address type in version byte'
deriving DecidableEq, Repr

/-- The hash-size table exactly as the specification states it (§4.2 step
6): low three bits of the version byte to hash size in bits.  Kept separate
from `getHashSize` so the code's `switch` can be compared against it. -/
def hashSizeTable : Nat → Nat
  | 0 => 160
  | 1 => 192
  | 2 => 224
  | 3 => 256
  | 4 => 320
  | 5 => 384
  | 6 => 448
  | _ => 512

/-- `getHashSize` (address.js:730-749): expected hash size in bits from the
low three bits of the version byte. -/
def getHashSize (versionByte : Nat) : Nat :=
  match versionByte &&& 7 with
  | 0 => 160
  | 1 => 192
  | 2 => 224
  | 3 => 256
  | 4 => 320
  | 5 => 384
  | 6 => 448
  | _ => 512

/-- Local helper `getType` of `decodeCashAddress` (address.js:339-348);
`none` models the thrown `Invalid address type in version byte` error. -/
def getAddrType (versionByte : Nat) : Option AddrType :=
  match versionByte &&& 120 with
  | 0 => some AddrType.pubkeyhash
  | 8 => some AddrType.scripthash
  | _ => none

/-- Version-byte handling of `decodeCashAddress` after regrouping
(address.js:333-350): the first regrouped byte is the version byte, the
remainder is the hash; the hash size is checked against the version byte,
then the type field is decoded. -/
def decodeVersionStage (convertedBits : List Nat) : Except DecodeError (AddrType × List Nat) :=
  let versionByte := convertedBits.headD 0
  let hash := convertedBits.tail
  if getHashSize versionByte ≠ hash.length * 8 then .error .invalidHashSize
  else
    match getAddrType versionByte with
    | some t => .ok (t, hash)
    | none => .error .invalidVersionType

/-- The protocol-inference loop of `decodeCashAddress` (address.js:321-330):
try the protocols of the known networks in the fixed order given. -/
def inferProtocolAux (payload : List Nat) : List (List Char) → Option (List Char)
  | [] => none
  | p :: rest => if validChecksum p payload then some p else inferProtocolAux payload rest

/-- Protocol inference over `['livenet', 'testnet', 'regtest']`; each name
resolves through the registry to its protocol string. -/
def inferProtocol (payload : List Nat) : Option (List Char) :=
  inferProtocolAux payload [livenet.protocol, testnet.protocol, regtest.protocol]

/-- The claimed-protocol piece of a (lower-cased) address string; `[]` when
the string has no `:` (the JS code also treats an empty first piece as
falsy, i.e. as an absent protocol). -/
def decodeProtocolPiece (address : List Char) : List Char :=
  if (splitOnChar ':' address).length = 2 then (splitOnChar ':' address).headD [] else []

/-- The payload piece of a (lower-cased) address string. -/
def decodePayloadPiece (address : List Char) : List Char :=
  if (splitOnChar ':' address).length = 2 then ((splitOnChar ':' address).drop 1).headD []
  else (splitOnChar ':' address).headD []

/-- The body of `decodeCashAddress` after the case check and lower-casing
(address.js:302-358). -/
def decodeLowered (address : List Char) : Except DecodeError AddrInfo :=
  if (splitOnChar ':' address).length > 2 then .error .invalidFormat else
  match base32Decode (toLowerStr (decodePayloadPiece address)) with
  | none => .error .invalidCharacter
  | some payload =>
    match (if decodeProtocolPiece address ≠ [] then
            (if validChecksum (decodeProtocolPiece address) payload
             then some (decodeProtocolPiece address) else none)
          else inferProtocol payload) with
    | none => .error .invalidChecksum
    | some protocol =>
      match convertBitsStrict (payload.take (payload.length - 8)) 5 8 with
      | none => .error .nonZeroPadding
      | some convertedBits =>
        match decodeVersionStage convertedBits with
        | .error e => .error e
        | .ok (type, hash) => .ok ⟨hash, getByProtocol protocol, some type⟩

/-- `decodeCashAddress` (address.js:286-358).  Note that an unregistered
protocol string with a valid checksum yields `network = none` (the JS code
stores `undefined` there and leaves the mismatch check to the caller). -/
def decodeCashAddress (address : List Char) : Except DecodeError AddrInfo :=
  if ¬ hasSingleCase address then .error .mixedCase
  else decodeLowered (toLowerStr address)

/-! ### The CashAddr encoder (address.js:667-715) -/

/-- The canonical address value (hash bytes, network, type); address.js
freezes exactly these three fields (address.js:84-88). -/
structure Address where
  hashBuffer : List Nat
  network : Network
  type : AddrType
deriving DecidableEq, Repr

/-- Local helper `getTypeBits` of `toCashAddress` (address.js:668-677). -/
def getTypeBits : AddrType → Nat
  | .pubkeyhash => 0
  | .scripthash => 8

/-- Local helper `getHashSizeBits` of `toCashAddress` (address.js:679-700);
`none` models the thrown `Invalid hash size` error. -/
def getHashSizeBits (hashLen : Nat) : Option Nat :=
  match hashLen * 8 with
  | 160 => some 0
  | 192 => some 1
  | 224 => some 2
  | 256 => some 3
  | 320 => some 4
  | 384 => some 5
  | 448 => some 6
  | 512 => some 7
  | _ => none

/-- The five-bit payload symbols (version byte and hash regrouped, followed
by the eight checksum digits) built by `toCashAddress` (address.js:702-708). -/
def encodePayloadSymbols (a : Address) (sizeBits : Nat) : List Nat :=
  let protocolData := protocolToArray a.network.protocol ++ [0]
  let versionByte := getTypeBits a.type + sizeBits
  let payloadData := convertBits (versionByte :: a.hashBuffer) 8 5
  let checksumData := protocolData ++ payloadData ++ [0, 0, 0, 0, 0, 0, 0, 0]
  payloadData ++ checksumToArray (polymod checksumData)

/-- `Address.prototype.toCashAddress` (address.js:667-715). -/
def toCashAddress (a : Address) (stripProtocol : Bool) : Option (List Char) :=
  match getHashSizeBits a.hashBuffer.length with
  | none => none
  | some sizeBits =>
    let payload := encodePayloadSymbols a sizeBits
    if stripProtocol then some (base32Encode payload)
    else some (a.network.protocol ++ ':' :: base32Encode payload)

/-! ### Classifier and constructor (address.js:52-226, 369-401) -/

/-- The distinct failure modes of classification/construction, one per
thrown message. -/
inductive AddrError
  | missingArg           -- 'First argument is required ...'
  | missingHash          -- 'Must provide a `hash` or `hashBuffer` property'
  | missingType          -- 'Must provide a `type` property'
  | unsupportedNetwork   -- 'Second argument must be a supported network.'
  | unknownNetwork       -- 'Unknown network'
  | hashLength           -- 'Address hashbuffers must be exactly 20 bytes.'
  | bufferLength         -- 'Address buffers must be exactly 21 bytes.'
  | networkMismatch      -- 'Address has mismatched network type.'
  | typeMismatch         -- 'Address has mismatched type.'
  | invalidAddressString -- 'Invalid Address string provided'
  | cantDeriveAddress    -- errors.Script.CantDeriveAddress
  | decodeError (e : DecodeError)
deriving DecidableEq, Repr

deriving instance DecidableEq for Except

/-- `Address._transformHash` (address.js:130-140). -/
def transformHash (hash : List Nat) : Except AddrError AddrInfo :=
  if hash.length ≠ 20 then .error .hashLength
  else .ok ⟨hash, none, none⟩

/-- `Address._classifyFromVersion` (address.js:167-182): probe the leading
byte against the pubkeyhash table first, then the scripthash table. -/
def classifyFromVersion (buffer : List Nat) : Option Network × Option AddrType :=
  match getByPubkeyhash (buffer.headD 0) with
  | some n => (some n, some AddrType.pubkeyhash)
  | none =>
    match getByScripthash (buffer.headD 0) with
    | some n => (some n, some AddrType.scripthash)
    | none => (none, none)

/-- `Address._transformBuffer` (address.js:193-226). -/
def transformBuffer (buffer : List Nat) (network : Option String) (type : Option AddrType) :
    Except AddrError AddrInfo :=
  if buffer.length ≠ 21 then .error .bufferLength else
  let v := classifyFromVersion buffer
  let netCheck : Except AddrError Unit :=
    match network with
    | none => .ok ()
    | some nm =>
      match getNetwork nm with
      | none => .error .unknownNetwork
      | some n =>
        match v.1 with
        | none => .error .networkMismatch
        | some bn => if n ≠ bn then .error .networkMismatch else .ok ()
  match netCheck with
  | .error e => .error e
  | .ok () =>
    match v.2 with
    | none => .error .typeMismatch
    | some bt =>
      match type with
      | some t => if t ≠ bt then .error .typeMismatch else .ok ⟨buffer.tail, v.1, v.2⟩
      | none => .ok ⟨buffer.tail, v.1, v.2⟩

/-- The structured-record input shape of `Address._transformObject`
(address.js:150-158). -/
structure ObjRecord where
  hash : Option (List Char)
  hashBuffer : Option (List Nat)
  type : Option AddrType
  network : Option String
deriving DecidableEq, Repr

def hexChars : List Char := "0123456789abcdef".toList

/-- Interface model of hex decoding done by `new Buffer(hex, 'hex')`. -/
def hexDigitVal (c : Char) : Nat :=
  (hexChars.findIdx? (fun x => x == toLowerChar c)).getD 0

/-- Interface model of `new Buffer(hex, 'hex')`. -/
def hexDecode (s : List Char) : List Nat :=
  (chunksOf 2 s).map (fun p => 16 * hexDigitVal (p.headD '0') + hexDigitVal (p.getD 1 '0'))

/-- Hex encoding used by `toObject` (`hashBuffer.toString('hex')`). -/
def hexEncode (bs : List Nat) : List Char :=
  (bs.map (fun b => [hexChars.getD (b / 16) '0', hexChars.getD (b % 16) '0'])).flatten

/-- `Address._transformObject` (address.js:150-158).  The caller's
`network`/`type` constructor arguments are not consulted here: the
record's own fields (with the registry default for a missing or unknown
network name) are used. -/
def transformObject (o : ObjRecord) : Except AddrError AddrInfo :=
  if o.hash = none ∧ o.hashBuffer = none then .error .missingHash else
  if o.type = none then .error .missingType else
  .ok ⟨(match o.hash with
        | some hx => hexDecode hx
        | none => o.hashBuffer.getD []),
       some ((o.network.bind getNetwork).getD defaultNetwork),
       o.type⟩

/-- The CashAddr branch of `Address._transformString` (address.js:383-391):
decode, then cross-check the caller-supplied network and type. -/
def cashaddrBranch (data : List Char) (networkObj : Option Network) (type : Option AddrType) :
    Except AddrError AddrInfo :=
  match decodeCashAddress data with
  | .error e => .error (.decodeError e)
  | .ok info =>
    let netBad : Bool :=
      match info.network, networkObj with
      | none, _ => true
      | some inNet, some n => n.name != inNet.name
      | some _, none => false
    let typeBad : Bool :=
      match info.type, type with
      | none, _ => true
      | some it, some t => it != t
      | some _, none => false
    if netBad then .error .networkMismatch
    else if typeBad then .error .typeMismatch
    else .ok info

/-- `Address._transformString` (address.js:369-401).  The 34-character lower
bound is checked on the raw string, the string is then trimmed, and the
35-character CashAddr gate is checked on the trimmed string; the legacy
Base58 branch is disabled and always fails. -/
def transformString (data : List Char) (network : Option String) (type : Option AddrType) :
    Except AddrError AddrInfo :=
  if data.length < 34 then .error .invalidAddressString else
  let data := trimStr data
  let networkObj := network.bind getNetwork
  if network.isSome ∧ networkObj = none then .error .unknownNetwork else
  if data.length > 35 then cashaddrBranch data networkObj type
  else .error .invalidAddressString

/-- `Address._transformPublicKey` (address.js:235-243).  The hash buffer
is `Hash.sha256ripemd160(pubkey.toBuffer())`; the digest computation lives
in the `ows-common` dependency outside this repository, and classification
never inspects the key otherwise, so a public-key input is represented
here by that 20-byte digest.  The type is fixed to pay-to-public-key-hash
and the network is left open — neither is cross-checked against the
constructor's arguments anywhere on this path. -/
def transformPublicKey (pkhash : List Nat) : Except AddrError AddrInfo :=
  .ok ⟨pkhash, none, some AddrType.pubkeyhash⟩

/-- `Address._transformScript` (address.js:252-260).  The info object is
whatever `script.getAddressInfo(network)` yields; the `Script` class lives
in `lib/script`, outside `src/`, so a script input is represented here by
that call's result.  A falsy result throws
`errors.Script.CantDeriveAddress`; a truthy one is returned without any
cross-check of the caller's arguments. -/
def transformScript (r : Option AddrInfo) : Except AddrError AddrInfo :=
  match r with
  | none => .error .cantDeriveAddress
  | some info => .ok info

/-- The constructor input shapes (`Address._classifyArguments`,
address.js:100-118).  A public key carries its 20-byte hash digest and a
script carries its `getAddressInfo` result — see the transform comments
above for why those stand in for the external classes. -/
inductive AddrData
  | buf (b : List Nat)
  | pk (pkhash : List Nat)
  | script (r : Option AddrInfo)
  | str (s : List Char)
  | obj (o : ObjRecord)
  | addr (a : Address)
deriving DecidableEq, Repr

/-- `Address._classifyArguments` (address.js:100-118). -/
def classifyArguments (data : AddrData) (network : Option String) (type : Option AddrType) :
    Except AddrError AddrInfo :=
  match data with
  | .buf b =>
    if b.length = 20 then transformHash b
    else if b.length = 21 then transformBuffer b network type
    else
      -- a Buffer of any other length falls through to `_transformObject`
      -- (lodash.isObject is true for buffers) with no hash properties:
      .error .missingHash
  | .pk h => transformPublicKey h
  | .script r => transformScript r
  | .str s => transformString s network type
  | .obj o => transformObject o
  | .addr _ => .error .missingArg  -- unreachable: the constructor returns early

/-- The `Address` constructor (address.js:52-91). -/
def addressCtor (data : AddrData) (network : Option String) (type : Option AddrType) :
    Except AddrError Address :=
  -- address.js:64-67: an existing Address instance is returned unchanged,
  -- before any validation of the remaining arguments.
  match data with
  | .addr a => .ok a
  | _ =>
    -- address.js:69: `$.checkArgument(data, ...)`; the empty string is falsy.
    if data = .str [] then .error .missingArg else
    -- address.js:70-72
    if network.isSome ∧ network.bind getNetwork = none then .error .unsupportedNetwork else
    match classifyArguments data network type with
    | .error e => .error e
    | .ok info =>
      -- address.js:81-82: defaults when classification left them open.
      .ok ⟨info.hashBuffer,
           info.network.getD ((network.bind getNetwork).getD defaultNetwork),
           info.type.getD (type.getD AddrType.pubkeyhash)⟩

/-! ### Observer methods (address.js:594-649), embedded with the post-call
object returned explicitly so that the absence of mutation is a stated
property rather than an artefact of the notation. -/

/-- `Address.prototype.isPayToPublicKeyHash` (address.js:594-596). -/
def Address.isPayToPublicKeyHashM (a : Address) : Bool × Address :=
  (a.type == AddrType.pubkeyhash, a)

/-- `Address.prototype.isPayToScriptHash` (address.js:602-604). -/
def Address.isPayToScriptHashM (a : Address) : Bool × Address :=
  (a.type == AddrType.scripthash, a)

/-- `Address.prototype.toBuffer` (address.js:611-615): the network's version
byte for the address type, followed by the hash. -/
def Address.toBufferM (a : Address) : List Nat × Address :=
  ((match a.type with
    | AddrType.pubkeyhash => a.network.pubkeyhash
    | AddrType.scripthash => a.network.scripthash) :: a.hashBuffer, a)

/-- The plain record produced by `Address.prototype.toObject` (address.js:620-626). -/
structure AddrObject where
  hash : List Char
  type : AddrType
  network : String
deriving DecidableEq, Repr

/-- `Address.prototype.toObject` (address.js:620-626). -/
def Address.toObjectM (a : Address) : AddrObject × Address :=
  (⟨hexEncode a.hashBuffer, a.type, a.network.name⟩, a)

/-- `Address.prototype.toCashAddress` as an instance method. -/
def Address.toCashAddressM (a : Address) (stripProtocol : Bool) :
    Option (List Char) × Address :=
  (toCashAddress a stripProtocol, a)

/-! ## Supporting lemmas: XOR and shifts on `Nat` -/

theorem xor_shiftRight_distrib (a b n : Nat) :
    (a ^^^ b) >>> n = a >>> n ^^^ b >>> n := by
  apply Nat.eq_of_testBit_eq
  intro i
  simp [Nat.testBit_shiftRight, Nat.testBit_xor]

theorem xor_shiftLeft_distrib (a b n : Nat) :
    (a ^^^ b) <<< n = a <<< n ^^^ b <<< n := by
  apply Nat.eq_of_testBit_eq
  intro i
  simp only [Nat.testBit_shiftLeft, Nat.testBit_xor]
  by_cases h : n ≤ i <;> simp [h]

/-- Recomposition of a number from its low five bits and the rest. -/
theorem xor_recompose_five (x : Nat) : ((x >>> 5) <<< 5) ^^^ (x &&& 31) = x := by
  apply Nat.eq_of_testBit_eq
  intro i
  have h31 : (31 : Nat) = 2 ^ 5 - 1 := rfl
  rcases Nat.lt_or_ge i 5 with h | h
  · simp only [Nat.testBit_xor, Nat.testBit_shiftLeft, Nat.testBit_and, h31,
      Nat.testBit_two_pow_sub_one]
    have : ¬ (5 ≤ i) := by omega
    simp [this, h]
  · simp only [Nat.testBit_xor, Nat.testBit_shiftLeft, Nat.testBit_shiftRight,
      Nat.testBit_and, h31, Nat.testBit_two_pow_sub_one]
    have h5 : 5 + (i - 5) = i := by omega
    have : ¬ (i < 5) := by omega
    simp [h, h5, this]

/-! ## The polymod step as a linear map over GF(2) -/

/-- The generator contribution of a polymod step, as a function of the
(low five bits of the) previous top bits. -/
def gfun (t : Nat) : Nat := applyGenerators t 0

/-- `applyGenerators` only XORs a state-independent quantity into its
accumulator argument. -/
theorem applyGenerators_accum (t : Nat) (c : Nat) :
    applyGenerators t c = c ^^^ gfun t := by
  have general : ∀ (l : List Nat) (c : Nat),
      l.foldl (fun c i => if (t >>> i) &&& 1 = 1 then c ^^^ GENERATORS.getD i 0 else c) c
        = c ^^^ l.foldl (fun c i => if (t >>> i) &&& 1 = 1 then c ^^^ GENERATORS.getD i 0 else c) 0 := by
    intro l
    induction l with
    | nil => simp
    | cons a l ih =>
      intro c
      simp only [List.foldl]
      by_cases h : (t >>> a) &&& 1 = 1
      · simp only [if_pos h]
        rw [ih, ih (0 ^^^ GENERATORS.getD a 0)]
        simp [Nat.xor_assoc]
      · simp only [if_neg h]
        exact ih c
  exact general (List.range 5) c

/-- Only the low five bits of the top-bits argument matter. -/
theorem gfun_and_31 (t : Nat) : gfun t = gfun (t &&& 31) := by
  have hbit : ∀ i < 5, ((t &&& 31) >>> i) &&& 1 = (t >>> i) &&& 1 := by
    intro i hi
    have h31 : (31 : Nat) = 2 ^ 5 - 1 := rfl
    have h1 : ∀ x : Nat, x &&& 1 = if x.testBit 0 then 1 else 0 := by
      intro x
      rw [Nat.and_one_is_mod]
      rcases Nat.mod_two_eq_zero_or_one x with h | h <;>
        simp [Nat.testBit_zero, h]
    rw [h1, h1]
    have heq : ((t &&& 31) >>> i).testBit 0 = (t >>> i).testBit 0 := by
      simp only [Nat.testBit_shiftRight, Nat.testBit_and, h31, Nat.testBit_two_pow_sub_one]
      have h5 : decide (i + 0 < 5) = true := by
        simp
        omega
      rw [h5, Bool.and_true]
    rw [heq]
  show applyGenerators t 0 = applyGenerators (t &&& 31) 0
  unfold applyGenerators
  have hr : List.range 5 = [0, 1, 2, 3, 4] := rfl
  rw [hr]
  simp only [List.foldl]
  rw [hbit 0 (by omega), hbit 1 (by omega), hbit 2 (by omega), hbit 3 (by omega),
    hbit 4 (by omega)]

/-- `gfun` is additive over XOR. -/
theorem gfun_additive (a b : Nat) : gfun (a ^^^ b) = gfun a ^^^ gfun b := by
  have key : ∀ x < 32, ∀ y < 32, gfun (x ^^^ y) = gfun x ^^^ gfun y := by decide
  have ha : a &&& 31 < 32 := Nat.lt_succ_of_le Nat.and_le_right
  have hb : b &&& 31 < 32 := Nat.lt_succ_of_le Nat.and_le_right
  calc gfun (a ^^^ b) = gfun ((a ^^^ b) &&& 31) := gfun_and_31 _
    _ = gfun ((a &&& 31) ^^^ (b &&& 31)) := by rw [Nat.and_xor_distrib_right]
    _ = gfun (a &&& 31) ^^^ gfun (b &&& 31) := key _ ha _ hb
    _ = gfun a ^^^ gfun b := by rw [← gfun_and_31, ← gfun_and_31]

/-- The homogeneous part of one polymod step. -/
def F0 (s : Nat) : Nat := polymodStep s 0

theorem F0_eq (s : Nat) :
    F0 s = ((s &&& 0x07ffffffff) <<< 5) ^^^ gfun (s >>> 35) := by
  show polymodStep s 0 = _
  unfold polymodStep
  rw [applyGenerators_accum, Nat.xor_zero]

/-- A polymod step is the homogeneous part XORed with the new symbol. -/
theorem polymodStep_eq (s v : Nat) : polymodStep s v = F0 s ^^^ v := by
  unfold polymodStep
  rw [applyGenerators_accum, F0_eq]
  rw [Nat.xor_assoc, Nat.xor_assoc, Nat.xor_comm v (gfun (s >>> 35))]

theorem F0_additive (a b : Nat) : F0 (a ^^^ b) = F0 a ^^^ F0 b := by
  rw [F0_eq, F0_eq, F0_eq, xor_shiftRight_distrib, gfun_additive,
    Nat.and_xor_distrib_right, xor_shiftLeft_distrib]
  rw [Nat.xor_assoc, Nat.xor_assoc]
  congr 1
  rw [← Nat.xor_assoc, ← Nat.xor_assoc]
  rw [Nat.xor_comm (gfun (a >>> 35)) ((b &&& 0x07ffffffff) <<< 5)]

theorem F0_zero : F0 0 = 0 := by decide

/-- The accumulator stays below `2 ^ 40` after any step. -/
theorem F0_lt (s : Nat) : F0 s < 2 ^ 40 := by
  rw [F0_eq]
  apply Nat.xor_lt_two_pow
  · rw [Nat.shiftLeft_eq]
    have h1 : s &&& 0x07ffffffff < 2 ^ 35 := Nat.lt_succ_of_le Nat.and_le_right
    calc (s &&& 0x07ffffffff) * 2 ^ 5 < 2 ^ 35 * 2 ^ 5 :=
          Nat.mul_lt_mul_of_pos_right h1 (by norm_num)
      _ = 2 ^ 40 := by norm_num
  · rw [gfun_and_31]
    have h : s >>> 35 &&& 31 < 32 := Nat.lt_succ_of_le Nat.and_le_right
    have key : ∀ t < 32, gfun t < 2 ^ 40 := by decide
    exact key _ h

/-- `F0` has trivial kernel on 40-bit states. -/
theorem F0_eq_zero_iff {s : Nat} (hs : s < 2 ^ 40) (h : F0 s = 0) : s = 0 := by
  have ht : s >>> 35 < 32 := by
    rw [Nat.shiftRight_eq_div_pow]
    have : s < 2 ^ 35 * 32 := by norm_num at hs ⊢; omega
    exact Nat.div_lt_of_lt_mul this
  have hlow : F0 s &&& 31 = s >>> 35 := by
    rw [F0_eq, Nat.and_xor_distrib_right]
    have h1 : ((s &&& 0x07ffffffff) <<< 5) &&& 31 = 0 := by
      have h31 : (31 : Nat) = 2 ^ 5 - 1 := rfl
      rw [h31, Nat.and_pow_two_sub_one_eq_mod, Nat.shiftLeft_eq, Nat.mul_mod_left]
    have h2 : gfun (s >>> 35) &&& 31 = s >>> 35 := by
      have key : ∀ t < 32, gfun t &&& 31 = t := by decide
      exact key _ ht
    rw [h1, h2, Nat.zero_xor]
  rw [h] at hlow
  have htop : s >>> 35 = 0 := by
    have : (0 : Nat) &&& 31 = 0 := by decide
    omega
  have hρ : F0 s = (s &&& 0x07ffffffff) <<< 5 := by
    rw [F0_eq, htop]
    have : gfun 0 = 0 := by decide
    rw [this, Nat.xor_zero]
  rw [h] at hρ
  have hmod : s &&& 0x07ffffffff = 0 := by
    rw [Nat.shiftLeft_eq] at hρ
    rcases Nat.mul_eq_zero.mp hρ.symm with h' | h'
    · exact h'
    · norm_num at h'
  have hC : (0x07ffffffff : Nat) = 2 ^ 35 - 1 := rfl
  rw [hC, Nat.and_pow_two_sub_one_eq_mod] at hmod
  rw [Nat.shiftRight_eq_div_pow] at htop
  have := Nat.div_add_mod s (2 ^ 35)
  omega

/-- Iterated homogeneous steps. -/
def F0iter : Nat → Nat → Nat
  | 0, s => s
  | k + 1, s => F0iter k (F0 s)

theorem F0iter_lt : ∀ (k : Nat) {s : Nat}, s < 2 ^ 40 → F0iter k s < 2 ^ 40
  | 0, _, hs => hs
  | k + 1, s, _ => F0iter_lt k (F0_lt s)

theorem F0iter_ne_zero : ∀ (k : Nat) {s : Nat}, s < 2 ^ 40 → s ≠ 0 → F0iter k s ≠ 0
  | 0, _, _, h0 => h0
  | k + 1, s, hs, h0 => by
    apply F0iter_ne_zero k (F0_lt s)
    intro hF
    exact h0 (F0_eq_zero_iff hs hF)

theorem F0iter_add (a b s : Nat) : F0iter (a + b) s = F0iter a (F0iter b s) := by
  induction b generalizing s with
  | zero => rfl
  | succ b ih =>
    show F0iter (a + b + 1) s = F0iter a (F0iter (b + 1) s)
    simp only [F0iter]
    exact ih (F0 s)

/-- The feedback map is injective on 40-bit states (its kernel is trivial). -/
theorem F0_inj {a b : Nat} (ha : a < 2 ^ 40) (hb : b < 2 ^ 40) (h : F0 a = F0 b) :
    a = b := by
  have hx0 : F0 (a ^^^ b) = 0 := by rw [F0_additive, h, Nat.xor_self]
  have hab : a ^^^ b = 0 := F0_eq_zero_iff (Nat.xor_lt_two_pow ha hb) hx0
  have h2 := Nat.xor_cancel_right b a
  rw [hab, Nat.zero_xor] at h2
  exact h2.symm

theorem F0iter_inj : ∀ (k : Nat) {a b : Nat}, a < 2 ^ 40 → b < 2 ^ 40 →
    F0iter k a = F0iter k b → a = b
  | 0, _, _, _, _, h => h
  | k + 1, a, b, ha, hb, h => F0_inj ha hb (F0iter_inj k (F0_lt a) (F0_lt b) h)

/-! ## The polymod fold: linearity, bounds and the checksum property -/

theorem foldl_polymodStep_xor (ds : List Nat) :
    ∀ (a δ : Nat), ds.foldl polymodStep (a ^^^ δ)
      = ds.foldl polymodStep a ^^^ F0iter ds.length δ := by
  induction ds with
  | nil => intro a δ; rfl
  | cons v ds ih =>
    intro a δ
    simp only [List.foldl, List.length_cons]
    have hstep : polymodStep (a ^^^ δ) v = polymodStep a v ^^^ F0 δ := by
      rw [polymodStep_eq, polymodStep_eq, F0_additive]
      rw [Nat.xor_assoc, Nat.xor_comm (F0 δ) v, ← Nat.xor_assoc]
    rw [hstep, ih]
    rfl

theorem foldl_polymodStep_lt (ds : List Nat) :
    ∀ (s : Nat), s < 2 ^ 40 → (∀ v ∈ ds, v < 2 ^ 40) →
      ds.foldl polymodStep s < 2 ^ 40 := by
  induction ds with
  | nil => intro s hs _; exact hs
  | cons v ds ih =>
    intro s _ hv
    simp only [List.foldl]
    apply ih
    · rw [polymodStep_eq]
      exact Nat.xor_lt_two_pow (F0_lt s) (hv v (by simp))
    · intro w hw; exact hv w (by simp [hw])

/-- Folding the eight checksum digits of a 40-bit value `c` from state `s`
gives `F0iter 8 s ^^^ c`. -/
theorem foldl_checksumToArray (c : Nat) (hc : c < 2 ^ 40) (s : Nat) :
    (checksumToArray c).foldl polymodStep s = F0iter 8 s ^^^ c := by
  have len : (checksumToArray c).length = 8 := by
    simp [checksumToArray]
  have base : (checksumToArray c).foldl polymodStep 0 = c := by
    have general : ∀ k, k ≤ 8 →
        (((List.range k).map (fun i => (c >>> (5 * i)) &&& 31)).reverse).foldl
          polymodStep (c >>> (5 * k)) = c := by
      intro k
      induction k with
      | zero => intro _; simp
      | succ k ih =>
        intro hk
        rw [List.range_succ, List.map_append, List.reverse_append]
        simp only [List.map_cons, List.map_nil, List.reverse_cons, List.reverse_nil,
          List.nil_append, List.singleton_append, List.foldl]
        have hsmall : c >>> (5 * (k + 1)) < 2 ^ 35 := by
          rw [Nat.shiftRight_eq_div_pow]
          have h1 : c / 2 ^ (5 * (k + 1)) ≤ c / 2 ^ 5 :=
            Nat.div_le_div_left (Nat.pow_le_pow_right (by norm_num) (by omega)) (by norm_num)
          have h2 : c / 2 ^ 5 < 2 ^ 35 := by
            apply Nat.div_lt_of_lt_mul
            norm_num at hc ⊢
            omega
          omega
        have hstep : polymodStep (c >>> (5 * (k + 1))) ((c >>> (5 * k)) &&& 31)
            = c >>> (5 * k) := by
          rw [polymodStep_eq]
          have hF : F0 (c >>> (5 * (k + 1))) = (c >>> (5 * (k + 1))) <<< 5 := by
            rw [F0_eq]
            have e1 : c >>> (5 * (k + 1)) &&& 0x07ffffffff = c >>> (5 * (k + 1)) := by
              have hC : (0x07ffffffff : Nat) = 2 ^ 35 - 1 := rfl
              rw [hC, Nat.and_pow_two_sub_one_eq_mod, Nat.mod_eq_of_lt hsmall]
            have e2 : c >>> (5 * (k + 1)) >>> 35 = 0 := by
              rw [Nat.shiftRight_eq_div_pow]
              exact Nat.div_eq_of_lt hsmall
            rw [e1, e2]
            have : gfun 0 = 0 := by decide
            rw [this, Nat.xor_zero]
          rw [hF]
          have hshift : c >>> (5 * (k + 1)) = (c >>> (5 * k)) >>> 5 := by
            rw [← Nat.shiftRight_add]
            congr 1
          rw [hshift]
          exact xor_recompose_five (c >>> (5 * k))
        rw [hstep]
        exact ih (by omega)
    have h8 : c >>> (5 * 8) = 0 := by
      rw [Nat.shiftRight_eq_div_pow]
      apply Nat.div_eq_of_lt
      calc c < 2 ^ 40 := hc
        _ ≤ 2 ^ (5 * 8) := by norm_num
    have := general 8 (le_refl 8)
    rw [h8] at this
    simpa [checksumToArray] using this
  have hx : (checksumToArray c).foldl polymodStep (0 ^^^ s)
      = (checksumToArray c).foldl polymodStep 0 ^^^ F0iter (checksumToArray c).length s :=
    foldl_polymodStep_xor _ 0 s
  rw [Nat.zero_xor, base, len] at hx
  rw [hx, Nat.xor_comm]

/-- Folding eight zero symbols applies `F0` eight times. -/
theorem foldl_eight_zeros (s : Nat) :
    List.foldl polymodStep s [0, 0, 0, 0, 0, 0, 0, 0] = F0iter 8 s := rfl

/-- Every entry of a protocol-data list is a small (five-bit) value. -/
theorem protocolData_lt (protocol : List Char) :
    ∀ v ∈ protocolToArray protocol ++ [0], v < 2 ^ 40 := by
  intro v hv
  rcases List.mem_append.mp hv with h | h
  · rcases List.mem_map.mp h with ⟨c, _, rfl⟩
    have : c.toNat &&& 31 ≤ 31 := Nat.and_le_right
    omega
  · simp at h
    omega

/-- `polymod` over a concatenation, exposing the intermediate state. -/
theorem polymod_append (a b : List Nat) :
    polymod (a ++ b) = b.foldl polymodStep (a.foldl polymodStep 1) ^^^ 1 := by
  unfold polymod
  rw [List.foldl_append]

theorem validChecksum_encode (protocol : List Char) (payloadData : List Nat)
    (hpd : ∀ v ∈ payloadData, v < 2 ^ 40) :
    validChecksum protocol
      (payloadData ++ checksumToArray
        (polymod ((protocolToArray protocol ++ [0]) ++ (payloadData ++ [0, 0, 0, 0, 0, 0, 0, 0]))))
      = true := by
  have hpreLt := protocolData_lt protocol
  set s0 := ((protocolToArray protocol ++ [0]) ++ payloadData).foldl polymodStep 1 with hs0def
  have hs0lt : s0 < 2 ^ 40 := by
    apply foldl_polymodStep_lt
    · norm_num
    · intro v hv
      rcases List.mem_append.mp hv with h | h
      · exact hpreLt v h
      · exact hpd v h
  set c := polymod ((protocolToArray protocol ++ [0]) ++ (payloadData ++ [0, 0, 0, 0, 0, 0, 0, 0]))
    with hcdef
  have hcval : c = F0iter 8 s0 ^^^ 1 := by
    rw [hcdef, show (protocolToArray protocol ++ [0]) ++ (payloadData ++ [0, 0, 0, 0, 0, 0, 0, 0])
        = ((protocolToArray protocol ++ [0]) ++ payloadData) ++ [0, 0, 0, 0, 0, 0, 0, 0] from
        (List.append_assoc _ _ _).symm]
    rw [polymod_append, ← hs0def, foldl_eight_zeros]
  have hclt : c < 2 ^ 40 := by
    rw [hcval]
    exact Nat.xor_lt_two_pow (F0iter_lt 8 hs0lt) (by norm_num)
  unfold validChecksum
  rw [show (protocolToArray protocol ++ [0]) ++ (payloadData ++ checksumToArray c)
      = ((protocolToArray protocol ++ [0]) ++ payloadData) ++ checksumToArray c from
      (List.append_assoc _ _ _).symm]
  rw [polymod_append, ← hs0def, foldl_checksumToArray c hclt, hcval]
  rw [← Nat.xor_assoc, Nat.xor_self, Nat.zero_xor, Nat.xor_self]
  rfl

/-- `polymod` is zero exactly when the raw fold reaches state `1`. -/
theorem polymod_eq_zero_iff (l : List Nat) :
    polymod l = 0 ↔ l.foldl polymodStep 1 = 1 := by
  unfold polymod
  constructor
  · intro h
    have := Nat.xor_cancel_right 1 (l.foldl polymodStep 1)
    rw [h, Nat.zero_xor] at this
    omega
  · intro h
    rw [h, Nat.xor_self]

/-- Substituting one five-bit symbol of a correctly checksummed payload
always breaks the checksum. -/
theorem validChecksum_substitution (protocol : List Char) (pre suf : List Nat) (x y : Nat)
    (hx : x < 32) (hy : y < 32) (hxy : x ≠ y)
    (hvalid : validChecksum protocol (pre ++ x :: suf) = true) :
    validChecksum protocol (pre ++ y :: suf) = false := by
  unfold validChecksum at hvalid ⊢
  rw [beq_iff_eq] at hvalid
  rw [show (protocolToArray protocol ++ [0]) ++ (pre ++ x :: suf)
      = ((protocolToArray protocol ++ [0]) ++ pre) ++ x :: suf from
      (List.append_assoc _ _ _).symm] at hvalid
  rw [polymod_eq_zero_iff] at hvalid
  apply beq_eq_false_iff_ne.mpr
  rw [show (protocolToArray protocol ++ [0]) ++ (pre ++ y :: suf)
      = ((protocolToArray protocol ++ [0]) ++ pre) ++ y :: suf from
      (List.append_assoc _ _ _).symm]
  intro hzero
  rw [polymod_eq_zero_iff] at hzero
  set q := (protocolToArray protocol ++ [0]) ++ pre with hq
  rw [List.foldl_append] at hvalid hzero
  simp only [List.foldl] at hvalid hzero
  have hstep : polymodStep (q.foldl polymodStep 1) y
      = polymodStep (q.foldl polymodStep 1) x ^^^ (x ^^^ y) := by
    rw [polymodStep_eq, polymodStep_eq, Nat.xor_assoc, ← Nat.xor_assoc x x y,
      Nat.xor_self, Nat.zero_xor]
  rw [hstep, foldl_polymodStep_xor, hvalid] at hzero
  have hδlt : x ^^^ y < 2 ^ 40 :=
    Nat.xor_lt_two_pow (by omega) (by omega)
  have hδne : x ^^^ y ≠ 0 := by
    intro h
    have h2 := Nat.xor_cancel_right y x
    rw [h, Nat.zero_xor] at h2
    exact hxy h2.symm
  have := F0iter_ne_zero suf.length hδlt hδne
  have h1 : F0iter suf.length (x ^^^ y) = 0 := by
    have := Nat.xor_cancel_left 1 (F0iter suf.length (x ^^^ y))
    rw [hzero] at this
    rw [← this, Nat.xor_self]
  exact this h1

/-- No payload can be correctly checksummed under two protocols whose
prefix fold states differ (the payload contribution is state-independent). -/
theorem validChecksum_unique (p q : List Char) (payload : List Nat)
    (hdiff : (protocolToArray p ++ [0]).foldl polymodStep 1
      ≠ (protocolToArray q ++ [0]).foldl polymodStep 1)
    (hp : validChecksum p payload = true) : validChecksum q payload = false := by
  unfold validChecksum at hp ⊢
  rw [beq_iff_eq, polymod_eq_zero_iff, List.foldl_append] at hp
  apply beq_eq_false_iff_ne.mpr
  intro hzero
  rw [polymod_eq_zero_iff, List.foldl_append] at hzero
  set sp := (protocolToArray p ++ [0]).foldl polymodStep 1 with hsp
  set sq := (protocolToArray q ++ [0]).foldl polymodStep 1 with hsq
  have hsplt : sp < 2 ^ 40 :=
    foldl_polymodStep_lt _ 1 (by norm_num) (protocolData_lt p)
  have hsqlt : sq < 2 ^ 40 :=
    foldl_polymodStep_lt _ 1 (by norm_num) (protocolData_lt q)
  have hδlt : sp ^^^ sq < 2 ^ 40 := Nat.xor_lt_two_pow hsplt hsqlt
  have hδne : sp ^^^ sq ≠ 0 := by
    intro h
    have h2 := Nat.xor_cancel_right sq sp
    rw [h, Nat.zero_xor] at h2
    exact hdiff h2.symm
  have hq' : payload.foldl polymodStep sq = payload.foldl polymodStep sp
      ^^^ F0iter payload.length (sp ^^^ sq) := by
    conv_lhs => rw [show sq = sp ^^^ (sp ^^^ sq) from by
      rw [← Nat.xor_assoc, Nat.xor_self, Nat.zero_xor]]
    rw [foldl_polymodStep_xor]
  rw [hq', hp] at hzero
  have hne := F0iter_ne_zero payload.length hδlt hδne
  apply hne
  have := Nat.xor_cancel_left 1 (F0iter payload.length (sp ^^^ sq))
  rw [hzero] at this
  rw [← this, Nat.xor_self]

/-- Substituting one five-bit symbol of a payload that checksums correctly
under protocol `p` can validate under protocol `q` only if some positive
iterate of the feedback map sends the two prefix states' difference to a
five-bit value; when no such iterate exists, the substituted payload is
invalid under `q`. -/
theorem validChecksum_cross_substitution (p q : List Char) (pre suf : List Nat) (x y : Nat)
    (hx : x < 32) (hy : y < 32)
    (hiter : ∀ j, 1 ≤ j → j ≤ pre.length + suf.length + 1 →
      32 ≤ F0iter j ((protocolToArray p ++ [0]).foldl polymodStep 1
        ^^^ (protocolToArray q ++ [0]).foldl polymodStep 1))
    (hvalid : validChecksum p (pre ++ x :: suf) = true) :
    validChecksum q (pre ++ y :: suf) = false := by
  unfold validChecksum at hvalid ⊢
  rw [beq_iff_eq, polymod_eq_zero_iff, List.foldl_append, List.foldl_append] at hvalid
  simp only [List.foldl] at hvalid
  apply beq_eq_false_iff_ne.mpr
  intro hzero
  rw [polymod_eq_zero_iff, List.foldl_append] at hzero
  set sp := (protocolToArray p ++ [0]).foldl polymodStep 1 with hspdef
  set sq := (protocolToArray q ++ [0]).foldl polymodStep 1 with hsqdef
  have hsplt : sp < 2 ^ 40 :=
    foldl_polymodStep_lt _ 1 (by norm_num) (protocolData_lt p)
  have hsqlt : sq < 2 ^ 40 :=
    foldl_polymodStep_lt _ 1 (by norm_num) (protocolData_lt q)
  have hΔlt : sp ^^^ sq < 2 ^ 40 := Nat.xor_lt_two_pow hsplt hsqlt
  have hzero' : (pre ++ y :: suf).foldl polymodStep (sp ^^^ (sp ^^^ sq)) = 1 := by
    rw [← Nat.xor_assoc, Nat.xor_self, Nat.zero_xor]
    exact hzero
  rw [foldl_polymodStep_xor, List.foldl_append] at hzero'
  simp only [List.foldl] at hzero'
  have hstep : polymodStep (pre.foldl polymodStep sp) y
      = polymodStep (pre.foldl polymodStep sp) x ^^^ (x ^^^ y) := by
    rw [polymodStep_eq, polymodStep_eq, Nat.xor_assoc, ← Nat.xor_assoc x x y,
      Nat.xor_self, Nat.zero_xor]
  rw [hstep, foldl_polymodStep_xor, hvalid] at hzero'
  have h1 : 1 ^^^ (F0iter suf.length (x ^^^ y)
      ^^^ F0iter (pre ++ y :: suf).length (sp ^^^ sq)) = 1 := by
    rw [← Nat.xor_assoc]
    exact hzero'
  have h0 : F0iter suf.length (x ^^^ y)
      ^^^ F0iter (pre ++ y :: suf).length (sp ^^^ sq) = 0 := by
    have hc := Nat.xor_cancel_left 1 (F0iter suf.length (x ^^^ y)
      ^^^ F0iter (pre ++ y :: suf).length (sp ^^^ sq))
    rw [h1] at hc
    simpa using hc.symm
  have h2 := Nat.xor_cancel_right (F0iter (pre ++ y :: suf).length (sp ^^^ sq))
    (F0iter suf.length (x ^^^ y))
  rw [h0, Nat.zero_xor] at h2
  have hLdec : (pre ++ y :: suf).length = suf.length + (pre.length + 1) := by
    simp only [List.length_append, List.length_cons]
    omega
  rw [hLdec, F0iter_add] at h2
  have hx5 : x < 2 ^ 5 := by norm_num; omega
  have hy5 : y < 2 ^ 5 := by norm_num; omega
  have hδ5 : x ^^^ y < 2 ^ 5 := Nat.xor_lt_two_pow hx5 hy5
  have hδ40 : x ^^^ y < 2 ^ 40 := lt_of_lt_of_le hδ5 (by norm_num)
  have hinj := F0iter_inj suf.length (F0iter_lt _ hΔlt) hδ40 h2
  have hge := hiter (pre.length + 1) (by omega) (by omega)
  rw [hinj] at hge
  norm_num at hδ5
  omega

/-! ## Bit regrouping: round trip -/

theorem natToBits_length (w n : Nat) : (natToBits w n).length = w := by
  simp [natToBits]

theorem natToBits_succ (w n : Nat) :
    natToBits (w + 1) n = n.testBit w :: natToBits w n := by
  unfold natToBits
  rw [List.range_succ_eq_map, List.map_cons, List.map_map]
  norm_num
  intro a _
  congr 1
  omega

theorem bitsToNat_foldl (bs : List Bool) : ∀ a : Nat,
    bs.foldl (fun acc b => 2 * acc + (if b then 1 else 0)) a
      = a * 2 ^ bs.length + bitsToNat bs := by
  induction bs with
  | nil => intro a; simp [bitsToNat]
  | cons b bs ih =>
    intro a
    simp only [List.foldl, List.length_cons]
    rw [ih]
    conv_rhs => rw [show bitsToNat (b :: bs)
      = bs.foldl (fun acc b => 2 * acc + (if b then 1 else 0)) (2 * 0 + if b then 1 else 0)
      from rfl]
    rw [ih]
    rw [pow_succ]
    ring

theorem bitsToNat_cons (b : Bool) (bs : List Bool) :
    bitsToNat (b :: bs) = (if b then 1 else 0) * 2 ^ bs.length + bitsToNat bs := by
  conv_lhs => rw [show bitsToNat (b :: bs)
    = bs.foldl (fun acc b => 2 * acc + (if b then 1 else 0)) (2 * 0 + if b then 1 else 0)
    from rfl]
  rw [bitsToNat_foldl]
  ring_nf

theorem bitsToNat_lt (bs : List Bool) : bitsToNat bs < 2 ^ bs.length := by
  induction bs with
  | nil => simp [bitsToNat]
  | cons b bs ih =>
    rw [bitsToNat_cons, List.length_cons, pow_succ]
    have hb : (if b then 1 else 0) ≤ 1 := by cases b <;> simp
    have h2 : (0:Nat) < 2 ^ bs.length := Nat.pos_pow_of_pos _ (by norm_num)
    nlinarith

theorem bitsToNat_natToBits (w n : Nat) : bitsToNat (natToBits w n) = n % 2 ^ w := by
  induction w with
  | zero => simp [natToBits, bitsToNat, Nat.mod_one]
  | succ w ih =>
    rw [natToBits_succ, bitsToNat_cons, natToBits_length, ih, pow_succ, Nat.mod_mul]
    rcases Nat.mod_two_eq_zero_or_one (n / 2 ^ w) with h | h <;>
      simp [Nat.testBit_to_div_mod, h] <;> ring

theorem natToBits_congr (w a b : Nat) (h : ∀ i < w, a.testBit i = b.testBit i) :
    natToBits w a = natToBits w b := by
  unfold natToBits
  apply List.map_congr_left
  intro i hi
  rw [List.mem_range] at hi
  exact h _ (by omega)

theorem natToBits_bitsToNat (bs : List Bool) :
    natToBits bs.length (bitsToNat bs) = bs := by
  induction bs with
  | nil => rfl
  | cons b bs ih =>
    rw [List.length_cons, natToBits_succ, bitsToNat_cons]
    have hK := bitsToNat_lt bs
    have hhead : ((if b then 1 else 0) * 2 ^ bs.length + bitsToNat bs).testBit bs.length = b := by
      rw [Nat.testBit_to_div_mod]
      have hdiv : ((if b then 1 else 0) * 2 ^ bs.length + bitsToNat bs) / 2 ^ bs.length
          = (if b then 1 else 0) := by
        rw [Nat.mul_comm, Nat.mul_add_div (Nat.pos_pow_of_pos _ (by norm_num)),
          Nat.div_eq_of_lt hK, Nat.add_zero]
      rw [hdiv]
      cases b <;> simp
    have htail : natToBits bs.length ((if b then 1 else 0) * 2 ^ bs.length + bitsToNat bs)
        = natToBits bs.length (bitsToNat bs) := by
      apply natToBits_congr
      intro i hi
      have h1 : ((if b then 1 else 0) * 2 ^ bs.length + bitsToNat bs) % 2 ^ bs.length
          = bitsToNat bs % 2 ^ bs.length := by
        rw [Nat.mul_comm, Nat.mul_add_mod]
      have h2 := Nat.testBit_mod_two_pow
        ((if b then 1 else 0) * 2 ^ bs.length + bitsToNat bs) bs.length i
      have h3 := Nat.testBit_mod_two_pow (bitsToNat bs) bs.length i
      rw [h1, h3] at h2
      have hd : decide (i < bs.length) = true := by simp [hi]
      rw [hd, Bool.true_and, Bool.true_and] at h2
      exact h2.symm
    rw [hhead, htail, ih]

theorem chunksOfAux_fuel {α : Type _} (k : Nat) :
    ∀ (f1 f2 : Nat) (l : List α), l.length ≤ f1 → l.length ≤ f2 →
      chunksOfAux k f1 l = chunksOfAux k f2 l := by
  intro f1
  induction f1 with
  | zero =>
    intro f2 l h1 _
    have hl : l = [] := List.eq_nil_of_length_eq_zero (by omega)
    subst hl
    cases f2 <;> rfl
  | succ f1 ih =>
    intro f2 l h1 h2
    cases l with
    | nil => cases f2 <;> rfl
    | cons a rest =>
      cases f2 with
      | zero => simp at h2
      | succ f2 =>
        simp only [chunksOfAux]
        congr 1
        apply ih
        · simp only [List.length_drop]
          simp only [List.length_cons] at h1
          omega
        · simp only [List.length_drop]
          simp only [List.length_cons] at h2
          omega

theorem chunksOf_nil {α : Type _} (k : Nat) : chunksOf k ([] : List α) = [] := rfl

theorem chunksOf_cons {α : Type _} (k : Nat) (a : α) (rest : List α) :
    chunksOf k (a :: rest)
      = (a :: rest.take (k - 1)) :: chunksOf k (rest.drop (k - 1)) := by
  show chunksOfAux k (rest.length + 1) (a :: rest) = _
  simp only [chunksOfAux]
  congr 1
  apply chunksOfAux_fuel
  · simp only [List.length_drop]
    omega
  · exact le_refl _

theorem chunksOf_append {α : Type _} (k : Nat) (hk : 0 < k) (a b : List α)
    (ha : a.length = k) : chunksOf k (a ++ b) = a :: chunksOf k b := by
  match a with
  | [] =>
    simp at ha
    omega
  | x :: rest =>
    rw [List.cons_append, chunksOf_cons]
    have hlen : rest.length = k - 1 := by
      simp at ha
      omega
    rw [List.take_left' hlen, List.drop_left' hlen]

theorem chunksOf_flatten_map {α : Type _} (k : Nat) (hk : 0 < k) (ls : List (List α))
    (h : ∀ l ∈ ls, l.length = k) : chunksOf k ls.flatten = ls := by
  induction ls with
  | nil => simp [chunksOf_nil]
  | cons l ls ih =>
    rw [List.flatten_cons, chunksOf_append k hk l _ (h l (by simp))]
    rw [ih (fun l hl => h l (by simp [hl]))]

theorem chunksOf_flatten {α : Type _} (k : Nat) (hk : 0 < k) (l : List α) :
    (chunksOf k l).flatten = l := by
  match l with
  | [] => simp [chunksOf_nil]
  | a :: rest =>
    rw [chunksOf_cons]
    simp only [List.flatten_cons]
    rw [chunksOf_flatten k hk (rest.drop (k - 1))]
    rw [List.cons_append, List.take_append_drop]
  termination_by l.length
  decreasing_by simp; omega

theorem chunksOf_length_of_dvd {α : Type _} (k : Nat) (hk : 0 < k) (l : List α)
    (hdvd : k ∣ l.length) : ∀ c ∈ chunksOf k l, c.length = k := by
  match l with
  | [] => simp [chunksOf_nil]
  | a :: rest =>
    obtain ⟨m, hm⟩ := hdvd
    match m with
    | 0 => simp at hm
    | m + 1 =>
      rw [Nat.mul_succ] at hm
      have hrest : rest.length = k * m + (k - 1) := by
        simp only [List.length_cons] at hm
        omega
      rw [chunksOf_cons]
      intro c hc
      rcases List.mem_cons.mp hc with rfl | hc
      · simp only [List.length_cons, List.length_take, hrest]
        omega
      · refine chunksOf_length_of_dvd k hk (rest.drop (k - 1)) ⟨m, ?_⟩ c hc
        simp only [List.length_drop, hrest]
        omega
  termination_by l.length
  decreasing_by simp; omega

theorem chunksOf_count_of_dvd {α : Type _} (k : Nat) (hk : 0 < k) (l : List α)
    (hdvd : k ∣ l.length) : (chunksOf k l).length = l.length / k := by
  have hall := chunksOf_length_of_dvd k hk l hdvd
  have hlen : l.length = k * (chunksOf k l).length := by
    conv_lhs => rw [← chunksOf_flatten k hk l]
    rw [List.length_flatten]
    have hmap : (chunksOf k l).map List.length = (chunksOf k l).map (fun _ => k) :=
      List.map_congr_left (fun c hc => hall c hc)
    rw [hmap]
    simp [Nat.mul_comm]
  rw [hlen, Nat.mul_div_cancel_left _ hk]

theorem chunksOf_length_le {α : Type _} (k : Nat) (hk : 0 < k) (l : List α) :
    ∀ c ∈ chunksOf k l, c.length ≤ k := by
  match l with
  | [] => simp [chunksOf_nil]
  | a :: rest =>
    rw [chunksOf_cons]
    intro c hc
    rcases List.mem_cons.mp hc with rfl | hc
    · simp only [List.length_cons, List.length_take]
      omega
    · exact chunksOf_length_le k hk (rest.drop (k - 1)) c hc
  termination_by l.length
  decreasing_by simp; omega

theorem flatten_natToBits_length (w : Nat) (data : List Nat) :
    ((data.map (natToBits w)).flatten).length = w * data.length := by
  induction data with
  | nil => simp
  | cons b data ih =>
    simp only [List.map_cons, List.flatten_cons, List.length_append, ih,
      natToBits_length, List.length_cons]
    ring

/-- Every output value of the bit-regrouping transform is below
`2 ^ toBits`. -/
theorem convertBits_lt (data : List Nat) (fromBits toBits : Nat) (ht : 0 < toBits) :
    ∀ v ∈ convertBits data fromBits toBits, v < 2 ^ toBits := by
  intro v hv
  unfold convertBits at hv
  rcases List.mem_map.mp hv with ⟨c, hc, rfl⟩
  have hle := chunksOf_length_le toBits ht _ c hc
  calc bitsToNat c < 2 ^ c.length := bitsToNat_lt c
    _ ≤ 2 ^ toBits := Nat.pow_le_pow_right (by norm_num) hle

/-- Strict regrouping undoes non-strict regrouping: the precise
`NonZeroPadding` behaviour of the round trip through five-bit symbols. -/
theorem convertBits_roundtrip (data : List Nat) (hd : ∀ b ∈ data, b < 2 ^ 8) :
    convertBitsStrict (convertBits data 8 5) 5 8 = some data := by
  have hblen : ((data.map (natToBits 8)).flatten).length = 8 * data.length :=
    flatten_natToBits_length 8 data
  set B := (data.map (natToBits 8)).flatten with hB
  set p := (5 - B.length % 5) % 5 with hp
  have hppos : p < 5 := by omega
  have hdvd5 : (5 : Nat) ∣ (B ++ List.replicate p false).length := by
    simp only [List.length_append, List.length_replicate]
    omega
  have hchunklen := chunksOf_length_of_dvd 5 (by norm_num) _ hdvd5
  -- the bit stream reconstructed inside `convertBitsStrict` is the padded stream
  have hB2 : ((convertBits data 8 5).map (natToBits 5)).flatten
      = B ++ List.replicate p false := by
    unfold convertBits
    rw [show zeroPad 5 ((data.map (natToBits 8)).flatten) = B ++ List.replicate p false from rfl]
    rw [List.map_map]
    have hmapid : (chunksOf 5 (B ++ List.replicate p false)).map (natToBits 5 ∘ bitsToNat)
        = chunksOf 5 (B ++ List.replicate p false) := by
      apply List.map_congr_left ?_ |>.trans (List.map_id _)
      intro c hc
      have hlen := hchunklen c hc
      simp only [Function.comp]
      rw [← hlen, natToBits_bitsToNat]
      rfl
    rw [hmapid, chunksOf_flatten 5 (by norm_num)]
  unfold convertBitsStrict
  rw [hB2]
  have hlen2 : (B ++ List.replicate p false).length = 8 * data.length + p := by
    simp only [List.length_append, List.length_replicate]
    omega
  have hkeep : 8 * ((B ++ List.replicate p false).length / 8) = B.length := by
    rw [hlen2]
    omega
  rw [hkeep]
  have hdrop : (B ++ List.replicate p false).drop B.length = List.replicate p false :=
    List.drop_left _ _
  have htake : (B ++ List.replicate p false).take B.length = B :=
    List.take_left _ _
  rw [hdrop, htake]
  have hall : (List.replicate p false).all (fun b => b == false) = true := by
    simp
  rw [hall, if_pos rfl]
  congr 1
  rw [hB, chunksOf_flatten_map 8 (by norm_num) _ (by
    intro l hl
    rcases List.mem_map.mp hl with ⟨b, _, rfl⟩
    exact natToBits_length 8 b)]
  rw [List.map_map]
  apply List.map_congr_left ?_ |>.trans (List.map_id _)
  intro b hb
  simp only [Function.comp]
  rw [show natToBits 8 b = natToBits (8:Nat) b from rfl, bitsToNat_natToBits,
    Nat.mod_eq_of_lt (hd b hb)]
  rfl

/-! ## The alphabet codec: round trip and injectivity -/

theorem charValue_encode (v : Nat) (hv : v < 32) :
    charValue (CHARSET.getD v 'q') = some v := by
  interval_cases v <;> decide

theorem encode_mem_charset (v : Nat) (hv : v < 32) : CHARSET.getD v 'q' ∈ CHARSET := by
  interval_cases v <;> decide

theorem charset_lower : ∀ c ∈ CHARSET, toLowerChar c = c := by decide

theorem charset_no_colon : ':' ∉ CHARSET := by decide

/-- Characters of the alphabet decode to their index: membership version. -/
theorem charValue_mem (c : Char) (hc : c ∈ CHARSET) :
    ∃ v, charValue c = some v ∧ v < 32 ∧ CHARSET.getD v 'q' = c := by
  have h : ∀ c ∈ CHARSET, (charValue c).isSome = true
      ∧ (charValue c).getD 0 < 32 ∧ CHARSET.getD ((charValue c).getD 0) 'q' = c := by
    decide
  have h' := h c hc
  rcases hv : charValue c with _ | v
  · rw [hv] at h'
    simp at h'
  · rw [hv] at h'
    simp only [Option.getD_some] at h'
    exact ⟨v, rfl, h'.2.1, h'.2.2⟩

theorem base32Decode_encode (vs : List Nat) (h : ∀ v ∈ vs, v < 32) :
    base32Decode (base32Encode vs) = some vs := by
  induction vs with
  | nil => rfl
  | cons v vs ih =>
    show base32Decode (CHARSET.getD v 'q' :: base32Encode vs) = _
    simp only [base32Decode]
    rw [charValue_encode v (h v (by simp)), ih (fun w hw => h w (by simp [hw]))]
    rfl

theorem base32Decode_append (a b : List Char) (la lb : List Nat)
    (ha : base32Decode a = some la) (hb : base32Decode b = some lb) :
    base32Decode (a ++ b) = some (la ++ lb) := by
  induction a generalizing la with
  | nil =>
    simp only [base32Decode] at ha
    cases ha
    simpa using hb
  | cons c rest ih =>
    simp only [base32Decode] at ha
    rcases hcv : charValue c with _ | v
    · rw [hcv] at ha
      simp at ha
    · rw [hcv] at ha
      rcases hrest : base32Decode rest with _ | vs
      · rw [hrest] at ha
        simp at ha
      · rw [hrest] at ha
        simp only [Option.some_bind, Option.map_some'] at ha
        cases ha
        rw [List.cons_append]
        simp only [base32Decode]
        rw [hcv, ih vs hrest]
        rfl

theorem base32Encode_mem (vs : List Nat) (h : ∀ v ∈ vs, v < 32) :
    ∀ c ∈ base32Encode vs, c ∈ CHARSET := by
  intro c hc
  rcases List.mem_map.mp hc with ⟨v, hv, rfl⟩
  exact encode_mem_charset v (h v hv)

/-! ## Split, trim and case lemmas -/

theorem splitOnChar_no_sep (sep : Char) (a : List Char) (h : sep ∉ a) :
    splitOnChar sep a = [a] := by
  induction a with
  | nil => rfl
  | cons c rest ih =>
    have hc : c ≠ sep := fun hc => h (by simp [hc])
    have hrest : sep ∉ rest := fun hr => h (by simp [hr])
    simp only [splitOnChar]
    rw [if_neg hc, ih hrest]
    rfl

theorem splitOnChar_append_sep (sep : Char) (a b : List Char) (h : sep ∉ a) :
    splitOnChar sep (a ++ sep :: b) = a :: splitOnChar sep b := by
  induction a with
  | nil =>
    show splitOnChar sep (sep :: b) = _
    simp only [splitOnChar]
    simp
  | cons c rest ih =>
    have hc : c ≠ sep := fun hc => h (by simp [hc])
    have hrest : sep ∉ rest := fun hr => h (by simp [hr])
    rw [List.cons_append]
    simp only [splitOnChar]
    rw [if_neg hc, ih hrest]
    rfl

theorem toLowerStr_fix (s : List Char) (h : ∀ c ∈ s, toLowerChar c = c) :
    toLowerStr s = s := by
  unfold toLowerStr
  exact (List.map_congr_left h).trans (List.map_id s)

theorem map_eq_self_elem {f : Char → Char} {s : List Char} (h : s.map f = s) :
    ∀ c ∈ s, f c = c := by
  induction s with
  | nil => simp
  | cons c rest ih =>
    simp only [List.map_cons, List.cons.injEq] at h
    intro d hd
    rcases List.mem_cons.mp hd with rfl | hd
    · exact h.1
    · exact ih h.2 d hd

theorem hasSingleCase_of_lower (s : List Char) (h : toLowerStr s = s) :
    hasSingleCase s = true := by
  unfold hasSingleCase
  rw [h]
  simp

/-- `decodeCashAddress` on an all-lower-case string runs the lowered body
directly. -/
theorem decodeCashAddress_of_lower (s : List Char) (h : toLowerStr s = s) :
    decodeCashAddress s = decodeLowered s := by
  unfold decodeCashAddress
  rw [hasSingleCase_of_lower s h]
  simp [h]

/-! ## ASCII case lemmas for arbitrary characters -/

theorem toNat_ofNat_small {n : Nat} (h : n < 55296) : (Char.ofNat n).toNat = n := by
  have hv : n.isValidChar := Or.inl h
  rw [Char.ofNat, dif_pos hv]
  rfl

theorem toUpperChar_idem (c : Char) : toUpperChar (toUpperChar c) = toUpperChar c := by
  unfold toUpperChar
  by_cases h : 97 ≤ c.toNat ∧ c.toNat ≤ 122
  · rw [if_pos h]
    have hval : (Char.ofNat (c.toNat - 32)).toNat = c.toNat - 32 :=
      toNat_ofNat_small (by omega)
    rw [if_neg (by rw [hval]; omega)]
  · rw [if_neg h, if_neg h]

theorem toLowerChar_toUpperChar (c : Char) (h : toLowerChar c = c) :
    toLowerChar (toUpperChar c) = c := by
  unfold toLowerChar at h
  by_cases hc : 65 ≤ c.toNat ∧ c.toNat ≤ 90
  · exfalso
    rw [if_pos hc] at h
    have := congrArg Char.toNat h
    rw [toNat_ofNat_small (by omega)] at this
    omega
  · unfold toUpperChar
    by_cases hu : 97 ≤ c.toNat ∧ c.toNat ≤ 122
    · rw [if_pos hu]
      unfold toLowerChar
      have hval : (Char.ofNat (c.toNat - 32)).toNat = c.toNat - 32 :=
        toNat_ofNat_small (by omega)
      rw [if_pos (by rw [hval]; omega), hval]
      have harith : c.toNat - 32 + 32 = c.toNat := by omega
      rw [harith, Char.ofNat_toNat]
    · rw [if_neg hu]
      unfold toLowerChar
      rw [if_neg hc]

theorem toUpperStr_idem (s : List Char) : toUpperStr (toUpperStr s) = toUpperStr s := by
  unfold toUpperStr
  rw [List.map_map]
  apply List.map_congr_left
  intro c _
  exact toUpperChar_idem c

theorem toLowerStr_toUpperStr (s : List Char) (h : toLowerStr s = s) :
    toLowerStr (toUpperStr s) = s := by
  have helem := map_eq_self_elem h
  unfold toLowerStr toUpperStr
  rw [List.map_map]
  exact (List.map_congr_left (fun c hc => toLowerChar_toUpperChar c (helem c hc))).trans
    (List.map_id s)

/-! ## Decoding an encoder output -/

/-- Case, colon and registry facts about the three protocol strings. -/
theorem network_facts : ∀ n ∈ registeredNetworks,
    toLowerStr n.protocol = n.protocol ∧ n.protocol ≠ [] ∧ ':' ∉ n.protocol
      ∧ getByProtocol n.protocol = some n := by
  decide

theorem checksumToArray_lt (c : Nat) : ∀ v ∈ checksumToArray c, v < 32 := by
  intro v hv
  unfold checksumToArray at hv
  rw [List.mem_reverse] at hv
  rcases List.mem_map.mp hv with ⟨i, _, rfl⟩
  have h := Nat.and_le_right (n := c >>> (5 * i)) (m := 31)
  omega

theorem checksumToArray_length (c : Nat) : (checksumToArray c).length = 8 := by
  simp [checksumToArray]

theorem encodePayloadSymbols_lt (a : Address) (sizeBits : Nat) :
    ∀ v ∈ encodePayloadSymbols a sizeBits, v < 32 := by
  intro v hv
  unfold encodePayloadSymbols at hv
  rcases List.mem_append.mp hv with h | h
  · have := convertBits_lt _ _ _ (by norm_num) v h
    norm_num at this
    exact this
  · exact checksumToArray_lt _ v h

/-- For a 20-byte hash the encoder's payload is 42 symbols long: 34
regrouped five-bit values and eight checksum digits. -/
theorem encodePayloadSymbols_length (hash : List Nat) (hlen : hash.length = 20)
    (n : Network) (t : AddrType) :
    (encodePayloadSymbols ⟨hash, n, t⟩ 0).length = 42 := by
  have hP : encodePayloadSymbols ⟨hash, n, t⟩ 0
      = convertBits ((getTypeBits t + 0) :: hash) 8 5
        ++ checksumToArray (polymod ((protocolToArray n.protocol ++ [0])
          ++ (convertBits ((getTypeBits t + 0) :: hash) 8 5 ++ [0, 0, 0, 0, 0, 0, 0, 0]))) := by
    simp only [encodePayloadSymbols]
    simp only [List.append_assoc]
  rw [hP, List.length_append, checksumToArray_length]
  have hflat : ((((getTypeBits t + 0) :: hash).map (natToBits 8)).flatten).length = 168 := by
    rw [flatten_natToBits_length]
    simp [hlen]
  have hpad : (zeroPad 5 ((((getTypeBits t + 0) :: hash).map (natToBits 8)).flatten)).length
      = 170 := by
    unfold zeroPad
    rw [List.length_append, List.length_replicate, hflat]
  have hconv : (convertBits ((getTypeBits t + 0) :: hash) 8 5).length = 34 := by
    unfold convertBits
    rw [List.length_map, chunksOf_count_of_dvd 5 (by norm_num) _ (by rw [hpad]; norm_num),
      hpad]
  rw [hconv]

/-- `toCashAddress` on a 20-byte hash produces the protocol-qualified
Base-32 encoding of the payload symbols. -/
theorem toCashAddress_encoded (hash : List Nat) (hlen : hash.length = 20)
    (n : Network) (t : AddrType) :
    toCashAddress ⟨hash, n, t⟩ false
      = some (n.protocol ++ ':' :: base32Encode (encodePayloadSymbols ⟨hash, n, t⟩ 0)) := by
  unfold toCashAddress
  have hs : getHashSizeBits (Address.mk hash n t).hashBuffer.length = some 0 := by
    show getHashSizeBits hash.length = some 0
    rw [hlen]
    decide
  rw [hs]
  rfl

/-- The version-byte stage accepts exactly the version byte the encoder
built for a 20-byte hash, recovering the type. -/
theorem decodeVersionStage_encode (t : AddrType) (hash : List Nat)
    (hlen : hash.length = 20) :
    decodeVersionStage ((getTypeBits t + 0) :: hash) = .ok (t, hash) := by
  cases t <;> simp [decodeVersionStage, getTypeBits, getHashSize, getAddrType, hlen]

/-- Decoding the lowered encoder output recovers hash, network and type. -/
theorem decodeLowered_encoded (hash : List Nat) (hlen : hash.length = 20)
    (hbytes : ∀ b ∈ hash, b < 256) (t : AddrType) (n : Network)
    (hn : n ∈ registeredNetworks) :
    decodeLowered (n.protocol ++ ':' :: base32Encode (encodePayloadSymbols ⟨hash, n, t⟩ 0))
      = .ok ⟨hash, some n, some t⟩ := by
  obtain ⟨hlow, hne, hnocolon, hget⟩ := network_facts n hn
  have hPlt := encodePayloadSymbols_lt ⟨hash, n, t⟩ 0
  have hchars := base32Encode_mem _ hPlt
  have hsplit : splitOnChar ':' (n.protocol ++ ':' :: base32Encode (encodePayloadSymbols ⟨hash, n, t⟩ 0))
      = [n.protocol, base32Encode (encodePayloadSymbols ⟨hash, n, t⟩ 0)] := by
    rw [splitOnChar_append_sep ':' _ _ hnocolon,
      splitOnChar_no_sep ':' _ (fun hc => charset_no_colon (hchars ':' hc))]
  have hlowchars : toLowerStr (base32Encode (encodePayloadSymbols ⟨hash, n, t⟩ 0))
      = base32Encode (encodePayloadSymbols ⟨hash, n, t⟩ 0) :=
    toLowerStr_fix _ (fun c hc => charset_lower c (hchars c hc))
  have hdec : base32Decode (toLowerStr (base32Encode (encodePayloadSymbols ⟨hash, n, t⟩ 0)))
      = some (encodePayloadSymbols ⟨hash, n, t⟩ 0) := by
    rw [hlowchars]
    exact base32Decode_encode _ hPlt
  have hP : encodePayloadSymbols ⟨hash, n, t⟩ 0
      = convertBits ((getTypeBits t + 0) :: hash) 8 5
        ++ checksumToArray (polymod ((protocolToArray n.protocol ++ [0])
          ++ (convertBits ((getTypeBits t + 0) :: hash) 8 5 ++ [0, 0, 0, 0, 0, 0, 0, 0]))) := by
    simp only [encodePayloadSymbols]
    simp only [List.append_assoc]
  have hvalid : validChecksum n.protocol (encodePayloadSymbols ⟨hash, n, t⟩ 0) = true := by
    rw [hP]
    apply validChecksum_encode
    intro v hv
    have := convertBits_lt ((getTypeBits t + 0) :: hash) 8 5 (by norm_num) v hv
    calc v < 2 ^ 5 := this
      _ < 2 ^ 40 := by norm_num
  have htake : (encodePayloadSymbols ⟨hash, n, t⟩ 0).take
      ((encodePayloadSymbols ⟨hash, n, t⟩ 0).length - 8)
      = convertBits ((getTypeBits t + 0) :: hash) 8 5 := by
    rw [hP]
    simp only [List.length_append, checksumToArray_length, Nat.add_sub_cancel]
    exact List.take_left _ _
  have hstrict : convertBitsStrict (convertBits ((getTypeBits t + 0) :: hash) 8 5) 5 8
      = some ((getTypeBits t + 0) :: hash) := by
    apply convertBits_roundtrip
    intro b hb
    rcases List.mem_cons.mp hb with rfl | hb
    · cases t <;> norm_num [getTypeBits]
    · have := hbytes b hb
      norm_num
      omega
  unfold decodeLowered decodeProtocolPiece decodePayloadPiece
  rw [hsplit]
  norm_num
  rw [hdec]
  simp only [if_neg hne, hvalid, if_true, htake, hstrict,
    decodeVersionStage_encode t hash hlen, hget]

/-- The full encoder output is an all-lower-case string. -/
theorem encoded_lower (hash : List Nat) (t : AddrType) (n : Network)
    (hn : n ∈ registeredNetworks) :
    toLowerStr (n.protocol ++ ':' :: base32Encode (encodePayloadSymbols ⟨hash, n, t⟩ 0))
      = n.protocol ++ ':' :: base32Encode (encodePayloadSymbols ⟨hash, n, t⟩ 0) := by
  apply toLowerStr_fix
  intro c hc
  rcases List.mem_append.mp hc with h | h
  · exact map_eq_self_elem (network_facts n hn).1 c h
  · rcases List.mem_cons.mp h with rfl | h
    · decide
    · exact charset_lower c
        (base32Encode_mem _ (encodePayloadSymbols_lt ⟨hash, n, t⟩ 0) c h)

/-- The bare (protocol-stripped) encoder output is all lower case. -/
theorem encoded_bare_lower (hash : List Nat) (t : AddrType) (n : Network) :
    toLowerStr (base32Encode (encodePayloadSymbols ⟨hash, n, t⟩ 0))
      = base32Encode (encodePayloadSymbols ⟨hash, n, t⟩ 0) :=
  toLowerStr_fix _
    (fun c hc => charset_lower c
      (base32Encode_mem _ (encodePayloadSymbols_lt ⟨hash, n, t⟩ 0) c hc))

/-- The prefix fold states of the three registered protocols are pairwise
distinct, so no payload checksums correctly under two of them. -/
theorem protocol_states_distinct :
    (protocolToArray livenet.protocol ++ [0]).foldl polymodStep 1
        ≠ (protocolToArray testnet.protocol ++ [0]).foldl polymodStep 1
      ∧ (protocolToArray livenet.protocol ++ [0]).foldl polymodStep 1
        ≠ (protocolToArray regtest.protocol ++ [0]).foldl polymodStep 1
      ∧ (protocolToArray testnet.protocol ++ [0]).foldl polymodStep 1
        ≠ (protocolToArray regtest.protocol ++ [0]).foldl polymodStep 1 := by
  decide

/-- No iterate of the feedback map, up to the 42-symbol payload length of
a 20-byte-hash encoding, sends the difference of two registered prefix
states to a five-bit value: a single symbol substitution can therefore
never re-validate a payload under another registered protocol. -/
theorem protocol_deltas_no_small_iterate :
    ∀ j < 43, 1 ≤ j →
      32 ≤ F0iter j ((protocolToArray livenet.protocol ++ [0]).foldl polymodStep 1
          ^^^ (protocolToArray testnet.protocol ++ [0]).foldl polymodStep 1)
      ∧ 32 ≤ F0iter j ((protocolToArray livenet.protocol ++ [0]).foldl polymodStep 1
          ^^^ (protocolToArray regtest.protocol ++ [0]).foldl polymodStep 1)
      ∧ 32 ≤ F0iter j ((protocolToArray testnet.protocol ++ [0]).foldl polymodStep 1
          ^^^ (protocolToArray regtest.protocol ++ [0]).foldl polymodStep 1) := by
  decide

/-- The inference loop is the first-match search over the fixed protocol
order. -/
theorem inferProtocolAux_find (payload : List Nat) (ps : List (List Char)) :
    inferProtocolAux payload ps = ps.find? (fun p => validChecksum p payload) := by
  induction ps with
  | nil => rfl
  | cons p rest ih =>
    simp only [inferProtocolAux, List.find?]
    rcases h : validChecksum p payload with _ | _ <;> simp [h, ih]

/-- On an encoder output's payload, inference returns exactly that
network's protocol (earlier-listed networks never shadow it). -/
theorem inferProtocol_encoded (hash : List Nat) (hlen : hash.length = 20)
    (hbytes : ∀ b ∈ hash, b < 256) (t : AddrType) (n : Network)
    (hn : n ∈ registeredNetworks) :
    inferProtocol (encodePayloadSymbols ⟨hash, n, t⟩ 0) = some n.protocol := by
  have hP : encodePayloadSymbols ⟨hash, n, t⟩ 0
      = convertBits ((getTypeBits t + 0) :: hash) 8 5
        ++ checksumToArray (polymod ((protocolToArray n.protocol ++ [0])
          ++ (convertBits ((getTypeBits t + 0) :: hash) 8 5 ++ [0, 0, 0, 0, 0, 0, 0, 0]))) := by
    simp only [encodePayloadSymbols]
    simp only [List.append_assoc]
  have hvalid : validChecksum n.protocol (encodePayloadSymbols ⟨hash, n, t⟩ 0) = true := by
    rw [hP]
    apply validChecksum_encode
    intro v hv
    have := convertBits_lt ((getTypeBits t + 0) :: hash) 8 5 (by norm_num) v hv
    calc v < 2 ^ 5 := this
      _ < 2 ^ 40 := by norm_num
  obtain ⟨hLT, hLR, hTR⟩ := protocol_states_distinct
  simp only [registeredNetworks, List.mem_cons, List.not_mem_nil, or_false] at hn
  rcases hn with rfl | rfl | rfl
  · unfold inferProtocol
    simp [inferProtocolAux, hvalid]
  · have hL : validChecksum livenet.protocol (encodePayloadSymbols ⟨hash, testnet, t⟩ 0)
        = false := validChecksum_unique testnet.protocol livenet.protocol _ hLT.symm hvalid
    unfold inferProtocol
    simp [inferProtocolAux, hL, hvalid]
  · have hL : validChecksum livenet.protocol (encodePayloadSymbols ⟨hash, regtest, t⟩ 0)
        = false := validChecksum_unique regtest.protocol livenet.protocol _ hLR.symm hvalid
    have hT : validChecksum testnet.protocol (encodePayloadSymbols ⟨hash, regtest, t⟩ 0)
        = false := validChecksum_unique regtest.protocol testnet.protocol _ hTR.symm hvalid
    unfold inferProtocol
    simp [inferProtocolAux, hL, hT, hvalid]

/-- Decoding the lowered bare encoder output also recovers hash, network
and type, through protocol inference. -/
theorem decodeLowered_encoded_bare (hash : List Nat) (hlen : hash.length = 20)
    (hbytes : ∀ b ∈ hash, b < 256) (t : AddrType) (n : Network)
    (hn : n ∈ registeredNetworks) :
    decodeLowered (base32Encode (encodePayloadSymbols ⟨hash, n, t⟩ 0))
      = .ok ⟨hash, some n, some t⟩ := by
  obtain ⟨hlow, hne, hnocolon, hget⟩ := network_facts n hn
  have hPlt := encodePayloadSymbols_lt ⟨hash, n, t⟩ 0
  have hchars := base32Encode_mem _ hPlt
  have hsplit : splitOnChar ':' (base32Encode (encodePayloadSymbols ⟨hash, n, t⟩ 0))
      = [base32Encode (encodePayloadSymbols ⟨hash, n, t⟩ 0)] :=
    splitOnChar_no_sep ':' _ (fun hc => charset_no_colon (hchars ':' hc))
  have hdec : base32Decode (toLowerStr (base32Encode (encodePayloadSymbols ⟨hash, n, t⟩ 0)))
      = some (encodePayloadSymbols ⟨hash, n, t⟩ 0) := by
    rw [encoded_bare_lower]
    exact base32Decode_encode _ hPlt
  have hP : encodePayloadSymbols ⟨hash, n, t⟩ 0
      = convertBits ((getTypeBits t + 0) :: hash) 8 5
        ++ checksumToArray (polymod ((protocolToArray n.protocol ++ [0])
          ++ (convertBits ((getTypeBits t + 0) :: hash) 8 5 ++ [0, 0, 0, 0, 0, 0, 0, 0]))) := by
    simp only [encodePayloadSymbols]
    simp only [List.append_assoc]
  have htake : (encodePayloadSymbols ⟨hash, n, t⟩ 0).take
      ((encodePayloadSymbols ⟨hash, n, t⟩ 0).length - 8)
      = convertBits ((getTypeBits t + 0) :: hash) 8 5 := by
    rw [hP]
    simp only [List.length_append, checksumToArray_length, Nat.add_sub_cancel]
    exact List.take_left _ _
  have hstrict : convertBitsStrict (convertBits ((getTypeBits t + 0) :: hash) 8 5) 5 8
      = some ((getTypeBits t + 0) :: hash) := by
    apply convertBits_roundtrip
    intro b hb
    rcases List.mem_cons.mp hb with rfl | hb
    · cases t <;> norm_num [getTypeBits]
    · have := hbytes b hb
      norm_num
      omega
  have hinfer := inferProtocol_encoded hash hlen hbytes t n hn
  unfold decodeLowered decodeProtocolPiece decodePayloadPiece
  rw [hsplit]
  norm_num
  rw [hdec]
  simp only [hinfer, htake, hstrict, decodeVersionStage_encode t hash hlen, hget]

/-- The bare variant of `toCashAddress` for a 20-byte hash. -/
theorem toCashAddress_encoded_bare (hash : List Nat) (hlen : hash.length = 20)
    (n : Network) (t : AddrType) :
    toCashAddress ⟨hash, n, t⟩ true
      = some (base32Encode (encodePayloadSymbols ⟨hash, n, t⟩ 0)) := by
  unfold toCashAddress
  have hs : getHashSizeBits (Address.mk hash n t).hashBuffer.length = some 0 := by
    show getHashSizeBits hash.length = some 0
    rw [hlen]
    decide
  rw [hs]
  rfl

/-- The payload built by the encoder always checksums correctly under its
own network's protocol. -/
theorem validChecksum_encodePayload (hash : List Nat) (t : AddrType) (n : Network) :
    validChecksum n.protocol (encodePayloadSymbols ⟨hash, n, t⟩ 0) = true := by
  have hP : encodePayloadSymbols ⟨hash, n, t⟩ 0
      = convertBits ((getTypeBits t + 0) :: hash) 8 5
        ++ checksumToArray (polymod ((protocolToArray n.protocol ++ [0])
          ++ (convertBits ((getTypeBits t + 0) :: hash) 8 5 ++ [0, 0, 0, 0, 0, 0, 0, 0]))) := by
    simp only [encodePayloadSymbols]
    simp only [List.append_assoc]
  rw [hP]
  apply validChecksum_encode
  intro v hv
  have := convertBits_lt ((getTypeBits t + 0) :: hash) 8 5 (by norm_num) v hv
  calc v < 2 ^ 5 := this
    _ < 2 ^ 40 := by norm_num

/-- Decomposing a mapped list along an append-and-cons split of its image. -/
theorem map_eq_append_cons {α β : Type _} (f : α → β) (l : List α) (a : List β) (b : β)
    (c : List β) (h : l.map f = a ++ b :: c) :
    ∃ xa x xc, l = xa ++ x :: xc ∧ xa.map f = a ∧ f x = b ∧ xc.map f = c := by
  induction a generalizing l with
  | nil =>
    cases l with
    | nil => simp at h
    | cons x xs =>
      simp only [List.map_cons, List.nil_append, List.cons.injEq] at h
      exact ⟨[], x, xs, rfl, rfl, h.1, h.2⟩
  | cons d a ih =>
    cases l with
    | nil => simp at h
    | cons x xs =>
      simp only [List.map_cons, List.cons_append, List.cons.injEq] at h
      obtain ⟨h1, h2⟩ := h
      obtain ⟨xa, y, xc, rfl, hmap, hfy, hmapc⟩ := ih xs h2
      exact ⟨x :: xa, y, xc, rfl, by simp [hmap, h1], hfy, hmapc⟩

/-! ## Version-byte characterization -/

/-- The code's `getHashSize` switch agrees with the specification's table. -/
theorem getHashSize_spec (v : Nat) : getHashSize v = hashSizeTable (v &&& 7) := by
  unfold getHashSize hashSizeTable
  have hb : v &&& 7 ≤ 7 := Nat.and_le_right
  generalize v &&& 7 = x at *
  interval_cases x <;> rfl

/-- The code's `getType` switch as an if-chain on the masked version byte. -/
theorem getAddrType_spec (v : Nat) :
    getAddrType v = if v &&& 120 = 0 then some AddrType.pubkeyhash
      else if v &&& 120 = 8 then some AddrType.scripthash else none := by
  unfold getAddrType
  have hb : v &&& 120 ≤ 120 := Nat.and_le_right
  generalize v &&& 120 = x at *
  interval_cases x <;> rfl

/-! ## Classifier-level helper lemmas -/

theorem transformBuffer_netMismatch (b : List Nat) (nm : String) (ty : Option AddrType)
    (N bn : Network) (bt : AddrType) (hb : b.length = 21)
    (hnm : getNetwork nm = some N) (hcl : classifyFromVersion b = (some bn, some bt))
    (hne : N ≠ bn) : transformBuffer b (some nm) ty = .error .networkMismatch := by
  simp only [transformBuffer, hb, hcl, hnm]
  simp [hne]

theorem transformBuffer_typeMismatch (b : List Nat) (N : Network) (bt t : AddrType)
    (hb : b.length = 21) (hcl : classifyFromVersion b = (some N, some bt))
    (hne : t ≠ bt) : transformBuffer b none (some t) = .error .typeMismatch := by
  simp only [transformBuffer, hb, hcl]
  simp [hne]

theorem transformString_netMismatch (s : List Char) (nm : String) (ty : Option AddrType)
    (N : Network) (info : AddrInfo) (M : Network)
    (h34 : ¬ s.length < 34) (h35 : 35 < (trimStr s).length)
    (hnm : getNetwork nm = some N) (hdec : decodeCashAddress (trimStr s) = .ok info)
    (hM : info.network = some M) (hname : N.name ≠ M.name) :
    transformString s (some nm) ty = .error .networkMismatch := by
  simp only [transformString]
  rw [if_neg h34]
  simp only [Option.some_bind, hnm, Option.isSome_some, true_and]
  rw [if_neg (by simp)]
  rw [if_pos h35]
  simp only [cashaddrBranch, hdec, hM]
  simp [hname]

theorem transformString_typeMismatch (s : List Char) (t : AddrType)
    (info : AddrInfo) (M : Network) (it : AddrType)
    (h34 : ¬ s.length < 34) (h35 : 35 < (trimStr s).length)
    (hdec : decodeCashAddress (trimStr s) = .ok info)
    (hM : info.network = some M) (hit : info.type = some it) (hne : t ≠ it) :
    transformString s none (some t) = .error .typeMismatch := by
  simp only [transformString]
  rw [if_neg h34]
  simp only [Option.none_bind, Option.isSome_none, Bool.false_eq_true, false_and]
  rw [if_neg (by simp)]
  rw [if_pos h35]
  simp only [cashaddrBranch, hdec, hM, hit]
  have hne' : it ≠ t := Ne.symm hne
  simp [hne']

theorem transformString_short (s : List Char) (net : Option String) (ty : Option AddrType)
    (h : s.length < 34) : transformString s net ty = .error .invalidAddressString := by
  simp only [transformString]
  rw [if_pos h]

theorem transformString_mid (s : List Char) (h34 : ¬ s.length < 34)
    (h35 : ¬ 35 < (trimStr s).length) :
    transformString s none none = .error .invalidAddressString := by
  simp only [transformString]
  rw [if_neg h34]
  simp only [Option.none_bind, Option.isSome_none, Bool.false_eq_true, false_and]
  rw [if_neg (by simp), if_neg h35]

theorem transformString_cashaddrGate (s : List Char) (h34 : ¬ s.length < 34)
    (h35 : 35 < (trimStr s).length) :
    transformString s none none = cashaddrBranch (trimStr s) none none := by
  simp only [transformString]
  rw [if_neg h34]
  simp only [Option.none_bind, Option.isSome_none, Bool.false_eq_true, false_and]
  rw [if_neg (by simp), if_pos h35]

theorem addressCtor_buf (b : List Nat) (net : Option String) (ty : Option AddrType)
    (hok : ¬ (net.isSome ∧ net.bind getNetwork = none)) :
    addressCtor (.buf b) net ty
      = match classifyArguments (.buf b) net ty with
        | .error e => .error e
        | .ok info => .ok ⟨info.hashBuffer,
            info.network.getD ((net.bind getNetwork).getD defaultNetwork),
            info.type.getD (ty.getD AddrType.pubkeyhash)⟩ := by
  simp only [addressCtor]
  rw [if_neg (by simp), if_neg hok]

theorem addressCtor_str (s : List Char) (net : Option String) (ty : Option AddrType)
    (hs : s ≠ []) (hok : ¬ (net.isSome ∧ net.bind getNetwork = none)) :
    addressCtor (.str s) net ty
      = match transformString s net ty with
        | .error e => .error e
        | .ok info => .ok ⟨info.hashBuffer,
            info.network.getD ((net.bind getNetwork).getD defaultNetwork),
            info.type.getD (ty.getD AddrType.pubkeyhash)⟩ := by
  simp only [addressCtor, classifyArguments]
  rw [if_neg (by simp [hs]), if_neg hok]

theorem addressCtor_obj (o : ObjRecord) (net : Option String) (ty : Option AddrType)
    (hok : ¬ (net.isSome ∧ net.bind getNetwork = none)) :
    addressCtor (.obj o) net ty
      = match transformObject o with
        | .error e => .error e
        | .ok info => .ok ⟨info.hashBuffer,
            info.network.getD ((net.bind getNetwork).getD defaultNetwork),
            info.type.getD (ty.getD AddrType.pubkeyhash)⟩ := by
  simp only [addressCtor, classifyArguments]
  rw [if_neg (by simp), if_neg hok]

theorem addressCtor_pk (h : List Nat) (net : Option String) (ty : Option AddrType)
    (hok : ¬ (net.isSome ∧ net.bind getNetwork = none)) :
    addressCtor (.pk h) net ty
      = .ok ⟨h, (net.bind getNetwork).getD defaultNetwork, AddrType.pubkeyhash⟩ := by
  simp only [addressCtor, classifyArguments, transformPublicKey]
  rw [if_neg (by simp), if_neg hok]
  rfl

theorem addressCtor_script (i : AddrInfo) (net : Option String) (ty : Option AddrType)
    (hok : ¬ (net.isSome ∧ net.bind getNetwork = none)) :
    addressCtor (.script (some i)) net ty
      = .ok ⟨i.hashBuffer,
          i.network.getD ((net.bind getNetwork).getD defaultNetwork),
          i.type.getD (ty.getD AddrType.pubkeyhash)⟩ := by
  simp only [addressCtor, classifyArguments, transformScript]
  rw [if_neg (by simp), if_neg hok]

/-- Decoding a protocol-qualified encoder output with one payload
character substituted fails with the invalid-checksum error. -/
theorem substituted_qualified_decode (hash : List Nat) (t : AddrType) (n : Network)
    (hn : n ∈ registeredNetworks) (cpre csuf : List Char) (c c' : Char)
    (hdecomp : base32Encode (encodePayloadSymbols ⟨hash, n, t⟩ 0) = cpre ++ c :: csuf)
    (hc' : c' ∈ CHARSET) (hcne : c' ≠ c) :
    decodeCashAddress (n.protocol ++ ':' :: (cpre ++ c' :: csuf))
      = .error .invalidChecksum := by
  obtain ⟨hlowp, hneP, hnocolon, hget⟩ := network_facts n hn
  have hPlt := encodePayloadSymbols_lt ⟨hash, n, t⟩ 0
  have hdecomp' : (encodePayloadSymbols ⟨hash, n, t⟩ 0).map (fun v => CHARSET.getD v 'q')
      = cpre ++ c :: csuf := hdecomp
  obtain ⟨spre, v, ssuf, hPdec, hmpre, hfv, hmsuf⟩ := map_eq_append_cons _ _ _ _ _ hdecomp'
  obtain ⟨v', hv', hv32', henc'⟩ := charValue_mem c' hc'
  have hvP : v < 32 := hPlt v (by rw [hPdec]; simp)
  have hsprelt : ∀ w ∈ spre, w < 32 := fun w hw => hPlt w (by rw [hPdec]; simp [hw])
  have hssuflt : ∀ w ∈ ssuf, w < 32 := fun w hw => hPlt w (by rw [hPdec]; simp [hw])
  have hvne : v ≠ v' := by
    intro he
    exact hcne (henc'.symm.trans (by rw [← he, hfv]))
  have hchars' : ∀ x ∈ cpre ++ c' :: csuf, x ∈ CHARSET := by
    intro x hx
    rcases List.mem_append.mp hx with hx | hx
    · rw [← hmpre] at hx
      rcases List.mem_map.mp hx with ⟨w, hw, rfl⟩
      exact encode_mem_charset w (hsprelt w hw)
    · rcases List.mem_cons.mp hx with rfl | hx
      · exact hc'
      · rw [← hmsuf] at hx
        rcases List.mem_map.mp hx with ⟨w, hw, rfl⟩
        exact encode_mem_charset w (hssuflt w hw)
  have hlowchars' : toLowerStr (cpre ++ c' :: csuf) = cpre ++ c' :: csuf :=
    toLowerStr_fix _ (fun x hx => charset_lower x (hchars' x hx))
  have hslower : toLowerStr (n.protocol ++ ':' :: (cpre ++ c' :: csuf))
      = n.protocol ++ ':' :: (cpre ++ c' :: csuf) := by
    apply toLowerStr_fix
    intro x hx
    rcases List.mem_append.mp hx with hx | hx
    · exact map_eq_self_elem hlowp x hx
    · rcases List.mem_cons.mp hx with rfl | hx
      · decide
      · exact charset_lower x (hchars' x hx)
  have hnocolon' : ':' ∉ cpre ++ c' :: csuf := fun hx => charset_no_colon (hchars' _ hx)
  have hsplit : splitOnChar ':' (n.protocol ++ ':' :: (cpre ++ c' :: csuf))
      = [n.protocol, cpre ++ c' :: csuf] := by
    rw [splitOnChar_append_sep ':' _ _ hnocolon, splitOnChar_no_sep ':' _ hnocolon']
  have hdec' : base32Decode (toLowerStr (cpre ++ c' :: csuf)) = some (spre ++ v' :: ssuf) := by
    rw [hlowchars']
    have h1 : base32Decode cpre = some spre := by
      rw [← hmpre]
      exact base32Decode_encode spre hsprelt
    have h2 : base32Decode (c' :: csuf) = some (v' :: ssuf) := by
      simp only [base32Decode]
      rw [hv', show csuf = base32Encode ssuf from hmsuf.symm,
        base32Decode_encode ssuf hssuflt]
      rfl
    exact base32Decode_append _ _ _ _ h1 h2
  have hbad : validChecksum n.protocol (spre ++ v' :: ssuf) = false := by
    apply validChecksum_substitution n.protocol spre ssuf v v' hvP hv32' hvne
    rw [← hPdec]
    exact validChecksum_encodePayload hash t n
  rw [decodeCashAddress_of_lower _ hslower]
  unfold decodeLowered decodeProtocolPiece decodePayloadPiece
  rw [hsplit]
  norm_num
  rw [hdec']
  simp [hneP, hbad]

/-- Decoding a bare (protocol-stripped) encoder output with one payload
character substituted fails with the invalid-checksum error: the
substituted payload validates under none of the three registered
protocols. -/
theorem substituted_bare_decode (hash : List Nat) (hlen : hash.length = 20)
    (t : AddrType) (n : Network) (hn : n ∈ registeredNetworks)
    (cpre csuf : List Char) (c c' : Char)
    (hdecomp : base32Encode (encodePayloadSymbols ⟨hash, n, t⟩ 0) = cpre ++ c :: csuf)
    (hc' : c' ∈ CHARSET) (hcne : c' ≠ c) :
    decodeCashAddress (cpre ++ c' :: csuf) = .error .invalidChecksum := by
  have hPlt := encodePayloadSymbols_lt ⟨hash, n, t⟩ 0
  have hdecomp' : (encodePayloadSymbols ⟨hash, n, t⟩ 0).map (fun v => CHARSET.getD v 'q')
      = cpre ++ c :: csuf := hdecomp
  obtain ⟨spre, v, ssuf, hPdec, hmpre, hfv, hmsuf⟩ := map_eq_append_cons _ _ _ _ _ hdecomp'
  obtain ⟨v', hv', hv32', henc'⟩ := charValue_mem c' hc'
  have hvP : v < 32 := hPlt v (by rw [hPdec]; simp)
  have hsprelt : ∀ w ∈ spre, w < 32 := fun w hw => hPlt w (by rw [hPdec]; simp [hw])
  have hssuflt : ∀ w ∈ ssuf, w < 32 := fun w hw => hPlt w (by rw [hPdec]; simp [hw])
  have hvne : v ≠ v' := by
    intro he
    exact hcne (henc'.symm.trans (by rw [← he, hfv]))
  have hchars' : ∀ x ∈ cpre ++ c' :: csuf, x ∈ CHARSET := by
    intro x hx
    rcases List.mem_append.mp hx with hx | hx
    · rw [← hmpre] at hx
      rcases List.mem_map.mp hx with ⟨w, hw, rfl⟩
      exact encode_mem_charset w (hsprelt w hw)
    · rcases List.mem_cons.mp hx with rfl | hx
      · exact hc'
      · rw [← hmsuf] at hx
        rcases List.mem_map.mp hx with ⟨w, hw, rfl⟩
        exact encode_mem_charset w (hssuflt w hw)
  have hlowchars' : toLowerStr (cpre ++ c' :: csuf) = cpre ++ c' :: csuf :=
    toLowerStr_fix _ (fun x hx => charset_lower x (hchars' x hx))
  have hnocolon' : ':' ∉ cpre ++ c' :: csuf := fun hx => charset_no_colon (hchars' _ hx)
  have hsplit : splitOnChar ':' (cpre ++ c' :: csuf) = [cpre ++ c' :: csuf] :=
    splitOnChar_no_sep ':' _ hnocolon'
  have hdec' : base32Decode (toLowerStr (cpre ++ c' :: csuf)) = some (spre ++ v' :: ssuf) := by
    rw [hlowchars']
    have h1 : base32Decode cpre = some spre := by
      rw [← hmpre]
      exact base32Decode_encode spre hsprelt
    have h2 : base32Decode (c' :: csuf) = some (v' :: ssuf) := by
      simp only [base32Decode]
      rw [hv', show csuf = base32Encode ssuf from hmsuf.symm,
        base32Decode_encode ssuf hssuflt]
      rfl
    exact base32Decode_append _ _ _ _ h1 h2
  have hlen42 : spre.length + ssuf.length + 1 = 42 := by
    have hl : (spre ++ v :: ssuf).length = 42 := by
      rw [← hPdec]
      exact encodePayloadSymbols_length hash hlen n t
    simp only [List.length_append, List.length_cons] at hl
    omega
  have hvalidn : validChecksum n.protocol (spre ++ v :: ssuf) = true := by
    rw [← hPdec]
    exact validChecksum_encodePayload hash t n
  obtain ⟨hfL, hfT, hfR⟩ : validChecksum livenet.protocol (spre ++ v' :: ssuf) = false
      ∧ validChecksum testnet.protocol (spre ++ v' :: ssuf) = false
      ∧ validChecksum regtest.protocol (spre ++ v' :: ssuf) = false := by
    simp only [registeredNetworks, List.mem_cons, List.not_mem_nil, or_false] at hn
    rcases hn with rfl | rfl | rfl
    · exact ⟨validChecksum_substitution _ spre ssuf v v' hvP hv32' hvne hvalidn,
        validChecksum_cross_substitution _ _ spre ssuf v v' hvP hv32'
          (fun j h1 h2 => (protocol_deltas_no_small_iterate j (by omega) h1).1) hvalidn,
        validChecksum_cross_substitution _ _ spre ssuf v v' hvP hv32'
          (fun j h1 h2 => (protocol_deltas_no_small_iterate j (by omega) h1).2.1) hvalidn⟩
    · exact ⟨validChecksum_cross_substitution _ _ spre ssuf v v' hvP hv32'
          (fun j h1 h2 => by
            rw [Nat.xor_comm]
            exact (protocol_deltas_no_small_iterate j (by omega) h1).1) hvalidn,
        validChecksum_substitution _ spre ssuf v v' hvP hv32' hvne hvalidn,
        validChecksum_cross_substitution _ _ spre ssuf v v' hvP hv32'
          (fun j h1 h2 => (protocol_deltas_no_small_iterate j (by omega) h1).2.2) hvalidn⟩
    · exact ⟨validChecksum_cross_substitution _ _ spre ssuf v v' hvP hv32'
          (fun j h1 h2 => by
            rw [Nat.xor_comm]
            exact (protocol_deltas_no_small_iterate j (by omega) h1).2.1) hvalidn,
        validChecksum_cross_substitution _ _ spre ssuf v v' hvP hv32'
          (fun j h1 h2 => by
            rw [Nat.xor_comm]
            exact (protocol_deltas_no_small_iterate j (by omega) h1).2.2) hvalidn,
        validChecksum_substitution _ spre ssuf v v' hvP hv32' hvne hvalidn⟩
  have hinferNone : inferProtocol (spre ++ v' :: ssuf) = none := by
    unfold inferProtocol
    simp [inferProtocolAux, hfL, hfT, hfR]
  rw [decodeCashAddress_of_lower _ hlowchars']
  unfold decodeLowered decodeProtocolPiece decodePayloadPiece
  rw [hsplit]
  norm_num
  rw [hdec']
  simp [hinferNone]

/-! ## The claims -/

/-- C1: for every 20-byte hash, type in {PayToPublicKeyHash,
PayToScriptHash} and registered network, decoding the CashAddr text
produced by encoding (`toCashAddress`) returns exactly the same hash
bytes, the same type and the same network. -/
theorem C1_encode_decode_roundtrip (hash : List Nat) (hlen : hash.length = 20)
    (hbytes : ∀ b ∈ hash, b < 256) (t : AddrType) (n : Network)
    (hn : n ∈ registeredNetworks) :
    ∃ s, toCashAddress ⟨hash, n, t⟩ false = some s
      ∧ decodeCashAddress s = .ok ⟨hash, some n, some t⟩ := by
  refine ⟨_, toCashAddress_encoded hash hlen n t, ?_⟩
  rw [decodeCashAddress_of_lower _ (encoded_lower hash t n hn)]
  exact decodeLowered_encoded hash hlen hbytes t n hn

/-- Witness for C1 at the all-zero hash on livenet. -/
theorem C1_encode_decode_roundtrip_witness :
    ∃ s, toCashAddress ⟨List.replicate 20 0, livenet, AddrType.pubkeyhash⟩ false = some s
      ∧ decodeCashAddress s
        = .ok ⟨List.replicate 20 0, some livenet, some AddrType.pubkeyhash⟩ :=
  C1_encode_decode_roundtrip (List.replicate 20 0) (by decide) (by decide)
    AddrType.pubkeyhash livenet (by decide)

/-- C2: after regrouping, the first byte is the version byte; its type
field (`versionByte AND 0x78 = 120`) must be `0` (PayToPublicKeyHash) or
`8` (PayToScriptHash), anything else fails; its low three bits select the
expected hash size through the table `{0:160,…,7:512}` bits
(`hashSizeTable`), and the stage fails unless the decoded hash length in
bits matches exactly. -/
theorem C2_version_byte_stage :
    (∀ v : Nat, getHashSize v = hashSizeTable (v &&& 7))
    ∧ (∀ (v : Nat) (h : List Nat), v &&& 120 = 0 → h.length * 8 = hashSizeTable (v &&& 7) →
        decodeVersionStage (v :: h) = .ok (AddrType.pubkeyhash, h))
    ∧ (∀ (v : Nat) (h : List Nat), v &&& 120 = 8 → h.length * 8 = hashSizeTable (v &&& 7) →
        decodeVersionStage (v :: h) = .ok (AddrType.scripthash, h))
    ∧ (∀ (v : Nat) (h : List Nat), v &&& 120 ≠ 0 → v &&& 120 ≠ 8 →
        ∀ t h', decodeVersionStage (v :: h) ≠ .ok (t, h'))
    ∧ (∀ (v : Nat) (h : List Nat), h.length * 8 ≠ hashSizeTable (v &&& 7) →
        decodeVersionStage (v :: h) = .error .invalidHashSize) := by
  refine ⟨getHashSize_spec, ?_, ?_, ?_, ?_⟩
  · intro v h hv hsz
    have hs : getHashSize v = h.length * 8 := by rw [getHashSize_spec, ← hsz]
    simp [decodeVersionStage, hs, getAddrType_spec, hv]
  · intro v h hv hsz
    have hs : getHashSize v = h.length * 8 := by rw [getHashSize_spec, ← hsz]
    simp [decodeVersionStage, hs, getAddrType_spec, hv]
  · intro v h h0 h8 t h' hok
    unfold decodeVersionStage at hok
    simp only [List.headD_cons, List.tail_cons] at hok
    split at hok
    · cases hok
    · rw [getAddrType_spec, if_neg (by simpa using h0), if_neg (by simpa using h8)] at hok
      cases hok
  · intro v h hne
    unfold decodeVersionStage
    rw [if_pos (by
      show getHashSize v ≠ (v :: h).tail.length * 8
      rw [getHashSize_spec]
      simpa using fun hcontra => hne hcontra.symm)]

/-- Witness for C2 at concrete version bytes and hash lengths. -/
theorem C2_version_byte_stage_witness :
    decodeVersionStage (0 :: List.replicate 20 1)
        = .ok (AddrType.pubkeyhash, List.replicate 20 1)
      ∧ decodeVersionStage (8 :: List.replicate 20 1)
        = .ok (AddrType.scripthash, List.replicate 20 1)
      ∧ decodeVersionStage (16 :: List.replicate 20 1)
        ≠ .ok (AddrType.pubkeyhash, List.replicate 20 1)
      ∧ decodeVersionStage (0 :: List.replicate 19 1) = .error .invalidHashSize :=
  ⟨C2_version_byte_stage.2.1 0 _ (by decide) (by decide),
   C2_version_byte_stage.2.2.1 8 _ (by decide) (by decide),
   C2_version_byte_stage.2.2.2.1 16 _ (by decide) (by decide) _ _,
   C2_version_byte_stage.2.2.2.2 0 _ (by decide)⟩

/-- C3: protocol inference tries livenet, testnet, regtest in that fixed
order and accepts the first whose checksum is zero (a `find?` over that
order); a bare string whose payload matches no network fails with the
invalid-checksum error; and for every valid encoding, decoding the bare
payload agrees with decoding the protocol-qualified form. -/
theorem C3_prefix_inference :
    (∀ payload : List Nat, inferProtocol payload
        = [livenet.protocol, testnet.protocol, regtest.protocol].find?
            (fun p => validChecksum p payload))
    ∧ (∀ chars : List Char, toLowerStr chars = chars → ':' ∉ chars →
        ∀ payload, base32Decode chars = some payload → inferProtocol payload = none →
          decodeCashAddress chars = .error .invalidChecksum)
    ∧ (∀ hash : List Nat, hash.length = 20 → (∀ b ∈ hash, b < 256) →
        ∀ (t : AddrType) (n : Network), n ∈ registeredNetworks →
        ∃ sbare sfull, toCashAddress ⟨hash, n, t⟩ true = some sbare
          ∧ toCashAddress ⟨hash, n, t⟩ false = some sfull
          ∧ decodeCashAddress sbare = decodeCashAddress sfull
          ∧ decodeCashAddress sbare = .ok ⟨hash, some n, some t⟩) := by
  refine ⟨fun payload => inferProtocolAux_find payload _, ?_, ?_⟩
  · intro chars hlow hcolon payload hdec hinf
    rw [decodeCashAddress_of_lower _ hlow]
    unfold decodeLowered decodeProtocolPiece decodePayloadPiece
    rw [splitOnChar_no_sep ':' chars hcolon]
    norm_num
    rw [hlow, hdec]
    simp [hinf]
  · intro hash hlen hbytes t n hn
    refine ⟨_, _, toCashAddress_encoded_bare hash hlen n t,
      toCashAddress_encoded hash hlen n t, ?_, ?_⟩
    · rw [decodeCashAddress_of_lower _ (encoded_bare_lower hash t n),
        decodeCashAddress_of_lower _ (encoded_lower hash t n hn),
        decodeLowered_encoded_bare hash hlen hbytes t n hn,
        decodeLowered_encoded hash hlen hbytes t n hn]
    · rw [decodeCashAddress_of_lower _ (encoded_bare_lower hash t n),
        decodeLowered_encoded_bare hash hlen hbytes t n hn]

/-- Witness for C3: a bare all-`q` payload matches no network, and the
all-zero livenet encoding decodes identically bare and qualified. -/
theorem C3_prefix_inference_witness :
    decodeCashAddress (List.replicate 42 'q') = .error .invalidChecksum
      ∧ ∃ sbare sfull,
        toCashAddress ⟨List.replicate 20 0, livenet, AddrType.pubkeyhash⟩ true = some sbare
        ∧ toCashAddress ⟨List.replicate 20 0, livenet, AddrType.pubkeyhash⟩ false = some sfull
        ∧ decodeCashAddress sbare = decodeCashAddress sfull
        ∧ decodeCashAddress sbare
          = .ok ⟨List.replicate 20 0, some livenet, some AddrType.pubkeyhash⟩ :=
  ⟨C3_prefix_inference.2.1 (List.replicate 42 'q') (by decide) (by decide)
      (List.replicate 42 0) (by decide) (by decide),
   C3_prefix_inference.2.2 (List.replicate 20 0) (by decide) (by decide)
      AddrType.pubkeyhash livenet (by decide)⟩

/-- C8: decoding is case-invariant — for any all-lower-case string,
decoding its upper-cased form gives the identical result — and any
mixed-case string is rejected with the mixed-case error before any
checksum work. -/
theorem C8_case_invariance :
    (∀ s : List Char, toLowerStr s = s →
      decodeCashAddress (toUpperStr s) = decodeCashAddress s)
    ∧ (∀ s : List Char, hasSingleCase s = false →
      decodeCashAddress s = .error .mixedCase) := by
  constructor
  · intro s h
    unfold decodeCashAddress
    have h1 : hasSingleCase (toUpperStr s) = true := by
      unfold hasSingleCase
      rw [toUpperStr_idem]
      simp
    have h2 : hasSingleCase s = true := hasSingleCase_of_lower s h
    rw [h1, h2]
    simp only [not_true, if_false]
    rw [toLowerStr_toUpperStr s h, h]
  · intro s h
    unfold decodeCashAddress
    rw [h]
    simp

/-- Witness for C8 at the all-zero livenet encoding and a mixed-case
string. -/
theorem C8_case_invariance_witness :
    decodeCashAddress
        (toUpperStr "bitcoincash:qqqqqqqqqqqqqqqqqqqqqqqqqqqqqqqqqqfnhks603".toList)
      = decodeCashAddress "bitcoincash:qqqqqqqqqqqqqqqqqqqqqqqqqqqqqqqqqqfnhks603".toList
    ∧ decodeCashAddress "Qq".toList = .error .mixedCase :=
  ⟨C8_case_invariance.1 _ (by decide), C8_case_invariance.2 _ (by decide)⟩

/-- C9: no observer method mutates the address: each one returns the
post-call object unchanged. -/
theorem C9_observers_no_mutation (a : Address) (strip : Bool) :
    (a.toBufferM).2 = a ∧ (a.toObjectM).2 = a ∧ (a.isPayToPublicKeyHashM).2 = a
      ∧ (a.isPayToScriptHashM).2 = a ∧ (a.toCashAddressM strip).2 = a :=
  ⟨rfl, rfl, rfl, rfl, rfl⟩

/-- C10: the constructor is the identity on existing `Address` instances,
whatever network and type arguments are supplied (they are not even
validated). -/
theorem C10_ctor_identity_on_address (a : Address) (network : Option String)
    (type : Option AddrType) : addressCtor (.addr a) network type = .ok a := rfl

/-- C4 counterexample: the upper-cased all-zero livenet encoding is a
valid encoded text, yet replacing one payload character by the (different,
valid) alphabet character `p` makes decoding fail with the mixed-case
error, not the invalid-checksum error. -/
theorem C4_uppercase_counterexample :
    decodeCashAddress "BITCOINCASH:QQQQQQQQQQQQQQQQQQQQQQQQQQQQQQQQQQFNHKS603".toList
        = .ok ⟨List.replicate 20 0, some livenet, some AddrType.pubkeyhash⟩
      ∧ "BITCOINCASH:pQQQQQQQQQQQQQQQQQQQQQQQQQQQQQQQQQFNHKS603".toList
          = ("BITCOINCASH:QQQQQQQQQQQQQQQQQQQQQQQQQQQQQQQQQQFNHKS603".toList).set 12 'p'
      ∧ 'p' ∈ CHARSET
      ∧ ("BITCOINCASH:QQQQQQQQQQQQQQQQQQQQQQQQQQQQQQQQQQFNHKS603".toList).getD 12 ' ' ≠ 'p'
      ∧ decodeCashAddress "BITCOINCASH:pQQQQQQQQQQQQQQQQQQQQQQQQQQQQQQQQQFNHKS603".toList
          = .error DecodeError.mixedCase
      ∧ DecodeError.mixedCase ≠ DecodeError.invalidChecksum := by
  decide

/-- C4 (amended): for every all-lower-case encoder output for a 20-byte
hash — protocol-qualified or bare — replacing exactly one character of
the Base-32 payload by any different alphabet character makes decoding
fail with the invalid-checksum error, deterministically for every such
single substitution. -/
theorem C4_single_substitution_detected :
    (∀ (hash : List Nat) (t : AddrType) (n : Network), hash.length = 20 →
      n ∈ registeredNetworks → ∀ (cpre csuf : List Char) (c c' : Char),
      base32Encode (encodePayloadSymbols ⟨hash, n, t⟩ 0) = cpre ++ c :: csuf →
      c' ∈ CHARSET → c' ≠ c →
      decodeCashAddress (n.protocol ++ ':' :: (cpre ++ c' :: csuf))
        = .error .invalidChecksum)
    ∧ (∀ (hash : List Nat) (t : AddrType) (n : Network), hash.length = 20 →
      n ∈ registeredNetworks → ∀ (cpre csuf : List Char) (c c' : Char),
      base32Encode (encodePayloadSymbols ⟨hash, n, t⟩ 0) = cpre ++ c :: csuf →
      c' ∈ CHARSET → c' ≠ c →
      decodeCashAddress (cpre ++ c' :: csuf) = .error .invalidChecksum) :=
  ⟨fun hash t n _ hn cpre csuf c c' hdecomp hc' hcne =>
      substituted_qualified_decode hash t n hn cpre csuf c c' hdecomp hc' hcne,
   fun hash t n hlen hn cpre csuf c c' hdecomp hc' hcne =>
      substituted_bare_decode hash hlen t n hn cpre csuf c c' hdecomp hc' hcne⟩

/-- Witness for C4 at the all-zero livenet encoding, substituting the
first payload character `q` by `p`, in both the protocol-qualified and
the bare form. -/
theorem C4_single_substitution_detected_witness :
    decodeCashAddress (livenet.protocol
        ++ ':' :: ([] ++ 'p' :: "qqqqqqqqqqqqqqqqqqqqqqqqqqqqqqqqqfnhks603".toList))
      = .error .invalidChecksum
    ∧ decodeCashAddress ([] ++ 'p' :: "qqqqqqqqqqqqqqqqqqqqqqqqqqqqqqqqqfnhks603".toList)
      = .error .invalidChecksum :=
  ⟨C4_single_substitution_detected.1 (List.replicate 20 0) AddrType.pubkeyhash livenet
      (by decide) (by decide) [] "qqqqqqqqqqqqqqqqqqqqqqqqqqqqqqqqqfnhks603".toList 'q' 'p'
      (by decide) (by decide) (by decide),
   C4_single_substitution_detected.2 (List.replicate 20 0) AddrType.pubkeyhash livenet
      (by decide) (by decide) [] "qqqqqqqqqqqqqqqqqqqqqqqqqqqqqqqqqfnhks603".toList 'q' 'p'
      (by decide) (by decide) (by decide)⟩

/-- C5 counterexample: for the structured-record input shape the
caller-supplied network (`livenet`) and type (`scripthash`) differ from
the record's own (`testnet`, `pubkeyhash`), yet construction succeeds with
the record's values — no mismatch error is raised. -/
theorem C5_object_shape_counterexample :
    addressCtor
        (.obj ⟨none, some (List.replicate 20 0), some AddrType.pubkeyhash, some "testnet"⟩)
        (some "livenet") (some AddrType.scripthash)
      = .ok ⟨List.replicate 20 0, testnet, AddrType.pubkeyhash⟩ := by
  decide

/-- C5 (amended): the explicit network/type cross-check exists only on the
21-byte buffer and string paths, where a mismatch fails with the
network-mismatch or type-mismatch error.  No other input shape
cross-checks the explicit arguments: the structured-record shape ignores
both and succeeds with the record's own values; the public-key shape
derives the pubkeyhash type and silently ignores a conflicting explicit
type; the script shape adopts `getAddressInfo`'s info, its derived fields
likewise taking silent precedence; and the 20-byte hash shape derives
neither field, so the explicit arguments are applied as defaults without
any possible conflict. -/
theorem C5_explicit_argument_crosscheck :
    (∀ (b : List Nat) (nm : String) (ty : Option AddrType) (N bn : Network) (bt : AddrType),
      b.length = 21 → getNetwork nm = some N →
      classifyFromVersion b = (some bn, some bt) → N ≠ bn →
      addressCtor (.buf b) (some nm) ty = .error .networkMismatch)
    ∧ (∀ (b : List Nat) (N : Network) (bt t : AddrType),
      b.length = 21 → classifyFromVersion b = (some N, some bt) → t ≠ bt →
      addressCtor (.buf b) none (some t) = .error .typeMismatch)
    ∧ (∀ (s : List Char) (nm : String) (ty : Option AddrType) (N : Network)
        (info : AddrInfo) (M : Network),
      ¬ s.length < 34 → 35 < (trimStr s).length → getNetwork nm = some N →
      decodeCashAddress (trimStr s) = .ok info → info.network = some M → N.name ≠ M.name →
      addressCtor (.str s) (some nm) ty = .error .networkMismatch)
    ∧ (∀ (s : List Char) (t : AddrType) (info : AddrInfo) (M : Network) (it : AddrType),
      ¬ s.length < 34 → 35 < (trimStr s).length →
      decodeCashAddress (trimStr s) = .ok info → info.network = some M →
      info.type = some it → t ≠ it →
      addressCtor (.str s) none (some t) = .error .typeMismatch)
    ∧ (∀ (o : ObjRecord) (hb : List Nat) (ot : AddrType) (nm : String) (N : Network)
        (ty : AddrType),
      o.hash = none → o.hashBuffer = some hb → o.type = some ot → getNetwork nm = some N →
      addressCtor (.obj o) (some nm) (some ty)
        = .ok ⟨hb, (o.network.bind getNetwork).getD defaultNetwork, ot⟩)
    ∧ (∀ (hb : List Nat) (nm : String) (N : Network) (ty : AddrType),
      getNetwork nm = some N →
      addressCtor (.pk hb) (some nm) (some ty) = .ok ⟨hb, N, AddrType.pubkeyhash⟩)
    ∧ (∀ (hb : List Nat) (M : Network) (it ty : AddrType),
      addressCtor (.script (some ⟨hb, some M, some it⟩)) none (some ty) = .ok ⟨hb, M, it⟩)
    ∧ (∀ (b : List Nat) (nm : String) (N : Network) (ty : AddrType),
      b.length = 20 → getNetwork nm = some N →
      addressCtor (.buf b) (some nm) (some ty) = .ok ⟨b, N, ty⟩) := by
  refine ⟨?_, ?_, ?_, ?_, ?_, ?_, ?_, ?_⟩
  · intro b nm ty N bn bt hb hnm hcl hne
    rw [addressCtor_buf b (some nm) ty (by simp [hnm])]
    simp only [classifyArguments]
    rw [if_neg (by rw [hb]; norm_num), if_pos hb,
      transformBuffer_netMismatch b nm ty N bn bt hb hnm hcl hne]
  · intro b N bt t hb hcl hne
    rw [addressCtor_buf b none (some t) (by simp)]
    simp only [classifyArguments]
    rw [if_neg (by rw [hb]; norm_num), if_pos hb,
      transformBuffer_typeMismatch b N bt t hb hcl hne]
  · intro s nm ty N info M h34 h35 hnm hdec hM hname
    have hs : s ≠ [] := by
      intro he
      subst he
      exact h34 (by norm_num)
    rw [addressCtor_str s (some nm) ty hs (by simp [hnm]),
      transformString_netMismatch s nm ty N info M h34 h35 hnm hdec hM hname]
  · intro s t info M it h34 h35 hdec hM hit hne
    have hs : s ≠ [] := by
      intro he
      subst he
      exact h34 (by norm_num)
    rw [addressCtor_str s none (some t) hs (by simp),
      transformString_typeMismatch s t info M it h34 h35 hdec hM hit hne]
  · intro o hb ot nm N ty hhash hhb htype hnm
    rw [addressCtor_obj o (some nm) (some ty) (by simp [hnm])]
    have hto : transformObject o
        = .ok ⟨hb, some ((o.network.bind getNetwork).getD defaultNetwork), some ot⟩ := by
      unfold transformObject
      rw [if_neg (by simp [hhb]), if_neg (by simp [htype])]
      simp [hhash, hhb, htype]
    rw [hto]
    simp
  · intro hb nm N ty hnm
    rw [addressCtor_pk hb (some nm) (some ty) (by simp [hnm])]
    simp [hnm]
  · intro hb M it ty
    rw [addressCtor_script ⟨hb, some M, some it⟩ none (some ty) (by simp)]
    rfl
  · intro b nm N ty hlen20 hnm
    rw [addressCtor_buf b (some nm) (some ty) (by simp [hnm])]
    simp only [classifyArguments]
    rw [if_pos hlen20]
    simp [transformHash, hlen20, hnm]

/-- Witness for C5 on concrete buffer, string, record, public-key, script
and raw-hash inputs. -/
theorem C5_explicit_argument_crosscheck_witness :
    addressCtor (.buf (111 :: List.replicate 20 0)) (some "livenet") none
        = .error .networkMismatch
      ∧ addressCtor (.buf (111 :: List.replicate 20 0)) none (some AddrType.scripthash)
        = .error .typeMismatch
      ∧ addressCtor
          (.str "bchtest:qqqqqqqqqqqqqqqqqqqqqqqqqqqqqqqqqqdpn3jdgd".toList)
          (some "livenet") none = .error .networkMismatch
      ∧ addressCtor
          (.str "bchtest:qqqqqqqqqqqqqqqqqqqqqqqqqqqqqqqqqqdpn3jdgd".toList)
          none (some AddrType.scripthash) = .error .typeMismatch
      ∧ addressCtor
          (.obj ⟨none, some (List.replicate 20 0), some AddrType.pubkeyhash, some "testnet"⟩)
          (some "livenet") (some AddrType.scripthash)
        = .ok ⟨List.replicate 20 0,
            ((some "testnet").bind getNetwork).getD defaultNetwork, AddrType.pubkeyhash⟩
      ∧ addressCtor (.pk (List.replicate 20 0)) (some "livenet") (some AddrType.scripthash)
        = .ok ⟨List.replicate 20 0, livenet, AddrType.pubkeyhash⟩
      ∧ addressCtor
          (.script (some ⟨List.replicate 20 0, some testnet, some AddrType.scripthash⟩))
          none (some AddrType.pubkeyhash)
        = .ok ⟨List.replicate 20 0, testnet, AddrType.scripthash⟩
      ∧ addressCtor (.buf (List.replicate 20 0)) (some "livenet") (some AddrType.scripthash)
        = .ok ⟨List.replicate 20 0, livenet, AddrType.scripthash⟩ :=
  ⟨C5_explicit_argument_crosscheck.1 (111 :: List.replicate 20 0) "livenet" none
      livenet testnet AddrType.pubkeyhash (by decide) (by decide) (by decide) (by decide),
   C5_explicit_argument_crosscheck.2.1 (111 :: List.replicate 20 0)
      testnet AddrType.pubkeyhash AddrType.scripthash (by decide) (by decide) (by decide),
   C5_explicit_argument_crosscheck.2.2.1 _ "livenet" none livenet
      ⟨List.replicate 20 0, some testnet, some AddrType.pubkeyhash⟩ testnet
      (by decide) (by decide) (by decide) (by decide) (by decide) (by decide),
   C5_explicit_argument_crosscheck.2.2.2.1 _ AddrType.scripthash
      ⟨List.replicate 20 0, some testnet, some AddrType.pubkeyhash⟩ testnet
      AddrType.pubkeyhash (by decide) (by decide) (by decide) (by decide) (by decide)
      (by decide),
   C5_explicit_argument_crosscheck.2.2.2.2.1
      ⟨none, some (List.replicate 20 0), some AddrType.pubkeyhash, some "testnet"⟩
      (List.replicate 20 0) AddrType.pubkeyhash "livenet" livenet AddrType.scripthash
      (by decide) (by decide) (by decide) (by decide),
   C5_explicit_argument_crosscheck.2.2.2.2.2.1 (List.replicate 20 0) "livenet" livenet
      AddrType.scripthash (by decide),
   C5_explicit_argument_crosscheck.2.2.2.2.2.2.1 (List.replicate 20 0) testnet
      AddrType.scripthash AddrType.pubkeyhash,
   C5_explicit_argument_crosscheck.2.2.2.2.2.2.2 (List.replicate 20 0) "livenet" livenet
      AddrType.scripthash (by decide) (by decide)⟩

/-- C6 counterexample: a 36-character string whose trailing space trims it
to 35 characters is not decoded as CashAddr text — it fails with the
invalid-address-string error, which the CashAddr branch can never
produce. -/
theorem C6_trim_counterexample :
    (List.replicate 35 'q' ++ [' ']).length = 36
      ∧ transformString (List.replicate 35 'q' ++ [' ']) none none
        = .error .invalidAddressString
      ∧ cashaddrBranch (trimStr (List.replicate 35 'q' ++ [' '])) none none
        = .error (.decodeError .invalidChecksum)
      ∧ cashaddrBranch (List.replicate 35 'q' ++ [' ']) none none
        = .error (.decodeError .invalidCharacter)
      ∧ AddrError.invalidAddressString ≠ AddrError.decodeError .invalidChecksum
      ∧ AddrError.invalidAddressString ≠ AddrError.decodeError .invalidCharacter := by
  decide

/-- C6 (amended): raw strings shorter than 34 characters fail with the
invalid-address-string error; strings whose trimmed form is at most 35
characters also fail with that error (no legacy fallback); and the
CashAddr decode branch runs exactly when the trimmed length exceeds 35. -/
theorem C6_string_length_gates :
    (∀ (s : List Char) (net : Option String) (ty : Option AddrType), s.length < 34 →
        transformString s net ty = .error .invalidAddressString)
    ∧ (∀ s : List Char, ¬ s.length < 34 → ¬ 35 < (trimStr s).length →
        transformString s none none = .error .invalidAddressString)
    ∧ (∀ s : List Char, ¬ s.length < 34 → 35 < (trimStr s).length →
        transformString s none none = cashaddrBranch (trimStr s) none none) :=
  ⟨fun s net ty h => transformString_short s net ty h,
   fun s h34 h35 => transformString_mid s h34 h35,
   fun s h34 h35 => transformString_cashaddrGate s h34 h35⟩

/-- Witness for C6 at concrete short, mid-length and long strings. -/
theorem C6_string_length_gates_witness :
    transformString "abc".toList none none = .error .invalidAddressString
      ∧ transformString (List.replicate 34 'q') none none = .error .invalidAddressString
      ∧ transformString (List.replicate 42 'q') none none
        = cashaddrBranch (trimStr (List.replicate 42 'q')) none none :=
  ⟨C6_string_length_gates.1 _ none none (by decide),
   C6_string_length_gates.2.1 _ (by decide) (by decide),
   C6_string_length_gates.2.2 _ (by decide) (by decide)⟩

/-- C7 counterexample: a version byte matching no registered table fails
with the mismatched-type error (or mismatched-network when a network
argument was supplied) — there is no distinct unknown-version-byte
error. -/
theorem C7_unknown_version_counterexample :
    classifyFromVersion (1 :: List.replicate 20 0) = (none, none)
      ∧ transformBuffer (1 :: List.replicate 20 0) none none = .error .typeMismatch
      ∧ addressCtor (.buf (1 :: List.replicate 20 0)) none none = .error .typeMismatch
      ∧ transformBuffer (1 :: List.replicate 20 0) (some "livenet") none
        = .error .networkMismatch := by
  decide

/-- C7 (amended): the leading byte is probed against every registered
network's pubkeyhash table first and then the scripthash table, the match
determining the resulting network and type; when no table matches, the
failure is the mismatched-type error (or the mismatched-network error when
a network argument was supplied), not a distinct unknown-version-byte
error. -/
theorem C7_buffer_version_byte :
    (∀ (b0 : Nat) (h : List Nat) (N : Network), h.length = 20 →
        getByPubkeyhash b0 = some N →
        transformBuffer (b0 :: h) none none = .ok ⟨h, some N, some AddrType.pubkeyhash⟩)
    ∧ (∀ (b0 : Nat) (h : List Nat) (N : Network), h.length = 20 →
        getByPubkeyhash b0 = none → getByScripthash b0 = some N →
        transformBuffer (b0 :: h) none none = .ok ⟨h, some N, some AddrType.scripthash⟩)
    ∧ (∀ (b0 : Nat) (h : List Nat), h.length = 20 →
        getByPubkeyhash b0 = none → getByScripthash b0 = none →
        transformBuffer (b0 :: h) none none = .error .typeMismatch
          ∧ ∀ (nm : String) (N : Network) (ty : Option AddrType), getNetwork nm = some N →
            transformBuffer (b0 :: h) (some nm) ty = .error .networkMismatch) := by
  refine ⟨?_, ?_, ?_⟩
  · intro b0 h N hlen hpk
    have hcl : classifyFromVersion (b0 :: h) = (some N, some AddrType.pubkeyhash) := by
      unfold classifyFromVersion
      simp [hpk]
    simp only [transformBuffer, List.length_cons, hlen, hcl]
    norm_num
  · intro b0 h N hlen hpk hsk
    have hcl : classifyFromVersion (b0 :: h) = (some N, some AddrType.scripthash) := by
      unfold classifyFromVersion
      simp [hpk, hsk]
    simp only [transformBuffer, List.length_cons, hlen, hcl]
    norm_num
  · intro b0 h hlen hpk hsk
    have hcl : classifyFromVersion (b0 :: h) = (none, none) := by
      unfold classifyFromVersion
      simp [hpk, hsk]
    constructor
    · simp only [transformBuffer, List.length_cons, hlen, hcl]
      norm_num
    · intro nm N ty hnm
      simp only [transformBuffer, List.length_cons, hlen, hcl, hnm]
      norm_num

/-- Witness for C7 at the livenet version bytes and an unregistered
byte. -/
theorem C7_buffer_version_byte_witness :
    transformBuffer (0 :: List.replicate 20 7) none none
        = .ok ⟨List.replicate 20 7, some livenet, some AddrType.pubkeyhash⟩
      ∧ transformBuffer (5 :: List.replicate 20 7) none none
        = .ok ⟨List.replicate 20 7, some livenet, some AddrType.scripthash⟩
      ∧ transformBuffer (1 :: List.replicate 20 7) none none = .error .typeMismatch :=
  ⟨C7_buffer_version_byte.1 0 _ livenet (by decide) (by decide),
   C7_buffer_version_byte.2.1 5 _ livenet (by decide) (by decide) (by decide),
   (C7_buffer_version_byte.2.2 1 _ (by decide) (by decide) (by decide)).1⟩

end Bcc
